import Mathlib

/-!
# Reference-counted `Pointer<T, size>` with a per-combination registry

A shallow embedding of `gc_details.h` (`PtrDetails`, `operator==`) and
`gc_pointer.h` (`Pointer<T, size>`: constructor, copy constructor, destructor,
`collect`, both `operator=`, `findPtrInfo`, `shutdown`, `begin`, `end`).

* Raw addresses `T*` are natural numbers, the null pointer is `0`.
* `int` and `unsigned` are 32 bits wide, addresses and `size_t` are wider (a 64-bit
  platform): `++` and `--` on an `unsigned` are taken modulo `2^32`, the conversions
  `int -> unsigned` and `size_t -> int` keep the low 32 bits.
* `std::list<PtrDetails<T>>` is a `List`, `push_front` is `::`, an iterator is a
  position (`none` for `end()`).
* `delete p` and `delete[] p` are recorded as `Release` events.
* A C++ exception, the dereference of `end()`, and the use of a handle that does
  not exist are results in `Except Fault`.
-/

namespace GC

/-- Raw address `T*`; the null pointer is `0`. -/
abbrev Addr := Nat

/-- Conversion `int -> unsigned` (32 bits): reduction modulo `2^32`. -/
def toU32 (n : Int) : Nat := (n % 4294967296).toNat

/-- Conversion `unsigned -> int` (32 bits, two's complement). -/
def toI32 (u : Nat) : Int :=
  if u % 4294967296 < 2147483648 then ((u % 4294967296 : Nat) : Int)
  else ((u % 4294967296 : Nat) : Int) - 4294967296

/-- The statement `x++` on an `unsigned`. -/
def incU32 (c : Nat) : Nat := (c + 1) % 4294967296

/-- The statement `x--` on an `unsigned`: `x - 1` modulo `2^32`, that is `(2^32 - 1) + x`
modulo `2^32`. -/
def decU32 (c : Nat) : Nat := (4294967295 + c) % 4294967296

/-- Class `PtrDetails<T>` of `gc_details.h`: one element of the garbage collection list. -/
structure PtrDetails where
  refcount : Nat
  memPtr : Addr
  isArray : Bool
  arraySize : Nat
  deriving DecidableEq, Repr

/-- Constructor `PtrDetails(T *ptr, int array_size)`. The member `arraySize` is
`unsigned`, so the test `arraySize > 0` is made on the converted value. -/
def PtrDetails.new (ptr : Addr) (array_size : Int) : PtrDetails :=
  { refcount := 1
    memPtr := ptr
    arraySize := toU32 array_size
    isArray := decide (toU32 array_size > 0) }

/-- What an operation can end with instead of a result. -/
inductive Fault where
  /-- The `std::runtime_error` thrown by `operator==`. -/
  | runtimeError
  /-- Member access through the iterator `refContainer.end()`. -/
  | endDeref
  /-- The operation names a handle that is not live. -/
  | noSuchHandle
  /-- The bound on the iterations of the `do ... while` of `collect` was reached. -/
  | outOfFuel
  deriving DecidableEq, Repr

deriving instance DecidableEq for Except

/-- The `operator==` of `gc_details.h` on two `PtrDetails`. -/
def operatorEq (obj1 obj2 : PtrDetails) : Except Fault Bool :=
  if obj1.memPtr = obj2.memPtr then
    if obj1.isArray ≠ obj2.isArray ∨ obj1.arraySize ≠ obj2.arraySize then
      .error .runtimeError
    else
      .ok true
  else
    .ok false

/-- A deallocation issued by `collect`: `delete p` or `delete[] p`. -/
inductive Release where
  | scalar (p : Addr)
  | array (p : Addr)
  deriving DecidableEq, Repr

/-- Address a deallocation is issued for. -/
def Release.addr : Release → Addr
  | .scalar p => p
  | .array p => p

/-- Data members of one `Pointer<T, size>` object. -/
structure Pointer where
  addr : Addr
  isArray : Bool
  arraySize : Nat
  deriving DecidableEq, Repr

/-- Static members of `Pointer<T, size>`; `atexitCalls` counts the calls
`atexit(shutdown)` made so far. -/
structure Statics where
  refContainer : List PtrDetails
  first : Bool
  atexitCalls : Nat
  deriving DecidableEq, Repr

/-- Static initialisation: an empty `refContainer` and `first = true`. -/
def Statics.init : Statics := { refContainer := [], first := true, atexitCalls := 0 }

/-- Member function `findPtrInfo`: position of the first record whose `memPtr` is `ptr`,
`none` for `refContainer.end()`. -/
def findPtrInfo : List PtrDetails → Addr → Option Nat
  | [], _ => none
  | p :: rest, ptr =>
    if p.memPtr = ptr then some 0
    else
      match findPtrInfo rest ptr with
      | some i => some (i + 1)
      | none => none

/-- Write through an iterator: the record at position `i` becomes `f` of itself. -/
def modifyAt (f : PtrDetails → PtrDetails) : Nat → List PtrDetails → List PtrDetails
  | _, [] => []
  | 0, p :: rest => f p :: rest
  | i + 1, p :: rest => p :: modifyAt f i rest

/-- The statement `p->refcount++`. -/
def incRef (p : PtrDetails) : PtrDetails := { p with refcount := incU32 p.refcount }

/-- The statement `p->refcount--`. -/
def decRef (p : PtrDetails) : PtrDetails := { p with refcount := decU32 p.refcount }

/-- The statement `if (p->refcount) p->refcount--;` of the destructor. -/
def decRefGuarded (p : PtrDetails) : PtrDetails :=
  if p.refcount ≠ 0 then decRef p else p

/-- Constructor `Pointer(T *t)` of `Pointer<T, size>`. -/
def Pointer.new (size : Int) (s : Statics) (t : Addr) : Statics × Pointer :=
  let atexitCalls := if s.first then s.atexitCalls + 1 else s.atexitCalls
  let refContainer :=
    match findPtrInfo s.refContainer t with
    | some p => modifyAt incRef p s.refContainer
    | none => PtrDetails.new t size :: s.refContainer
  ({ refContainer := refContainer, first := false, atexitCalls := atexitCalls },
   { addr := t, arraySize := toU32 size, isArray := decide (size > 0) })

/-- Copy constructor `Pointer(const Pointer &ob)`. -/
def Pointer.copy (reg : List PtrDetails) (ob : Pointer) :
    Except Fault (List PtrDetails × Pointer) :=
  match findPtrInfo reg ob.addr with
  | none => .error .endDeref
  | some p =>
    .ok (modifyAt incRef p reg,
         { addr := ob.addr, arraySize := ob.arraySize, isArray := decide (ob.arraySize > 0) })

/-- The `for` loop of `collect`: the first record that is not skipped by
`if (p->refcount > 0) continue;`, `none` when the loop ends with `p == end()`. -/
def collectScan : List PtrDetails → Option PtrDetails
  | [] => none
  | p :: rest => if p.refcount > 0 then collectScan rest else some p

/-- The call `std::list::remove(value)`: every element `e` with `e == value` is unlinked;
a comparison that throws ends the call. -/
def listRemove : List PtrDetails → PtrDetails → Except Fault (List PtrDetails)
  | [], _ => .ok []
  | e :: rest, value =>
    match operatorEq e value with
    | .error f => .error f
    | .ok same =>
      match listRemove rest value with
      | .error f => .error f
      | .ok rest' => .ok (if same then rest' else e :: rest')

/-- The block `if (p->memPtr) { if (p->isArray) delete[] p->memPtr; else delete p->memPtr; }`
of `collect`, with the fields of the record that was just unlinked. -/
def freeMemory (p : PtrDetails) : List Release :=
  if p.memPtr ≠ 0 then
    if p.isArray then [Release.array p.memPtr] else [Release.scalar p.memPtr]
  else []

/-- The `do ... while (p != refContainer.end())` of `collect`, at most `fuel` iterations.
The state is the list, the flag `memfreed` and the deallocations issued so far. -/
def collectLoop : Nat → List PtrDetails → Bool → List Release →
    Except Fault (Bool × List PtrDetails × List Release)
  | 0, _, _, _ => .error .outOfFuel
  | fuel + 1, reg, memfreed, released =>
    match collectScan reg with
    | none => .ok (memfreed, reg, released)
    | some p =>
      match listRemove reg p with
      | .error f => .error f
      | .ok reg' => collectLoop fuel reg' true (released ++ freeMemory p)

/-- Static member function `collect`: the value returned, the list left, and the
deallocations issued. -/
def collect (reg : List PtrDetails) : Except Fault (Bool × List PtrDetails × List Release) :=
  collectLoop (reg.length + 1) reg false []

/-- Destructor `~Pointer()`: the list left and the deallocations issued. -/
def Pointer.destroy (reg : List PtrDetails) (self : Pointer) :
    Except Fault (List PtrDetails × List Release) :=
  match findPtrInfo reg self.addr with
  | none => .error .endDeref
  | some p =>
    match collect (modifyAt decRefGuarded p reg) with
    | .error f => .error f
    | .ok (_, reg', released) => .ok (reg', released)

/-- Member `T *operator=(T *t)`: the list left, the handle, and the value returned. -/
def Pointer.assignRaw (size : Int) (reg : List PtrDetails) (self : Pointer) (t : Addr) :
    Except Fault (List PtrDetails × Pointer × Addr) :=
  match findPtrInfo reg self.addr with
  | none => .error .endDeref
  | some p =>
    let reg1 := modifyAt decRef p reg
    let reg2 :=
      match findPtrInfo reg1 t with
      | some q => modifyAt incRef q reg1
      | none => PtrDetails.new t size :: reg1
    .ok (reg2, { self with addr := t }, t)

/-- Member `Pointer &operator=(Pointer &rv)`: the list left and the handle. -/
def Pointer.assign (reg : List PtrDetails) (self rv : Pointer) :
    Except Fault (List PtrDetails × Pointer) :=
  match findPtrInfo reg self.addr with
  | none => .error .endDeref
  | some p =>
    let reg1 := modifyAt decRef p reg
    match findPtrInfo reg1 rv.addr with
    | none => .error .endDeref
    | some q => .ok (modifyAt incRef q reg1, { self with addr := rv.addr })

/-- Static member function `refContainerSize`: the value of `refContainer.size()`
converted to the return type `int`. -/
def refContainerSize (reg : List PtrDetails) : Int := toI32 reg.length

/-- Static member function `shutdown`: the list left and the deallocations issued. -/
def shutdown (reg : List PtrDetails) : Except Fault (List PtrDetails × List Release) :=
  if refContainerSize reg = 0 then .ok (reg, [])
  else
    match collect (reg.map fun p => { p with refcount := 0 }) with
    | .error f => .error f
    | .ok (_, reg', released) => .ok (reg', released)

/-- Modelled from the spec: the traversal object `Iter<T>` of `gc_iterator.h`, which is not
among the sources; it is "parameterized by (current address, lower bound, upper bound)".
Positions are in units of elements. -/
structure Iter where
  ptr : Int
  lower : Int
  upper : Int
  deriving DecidableEq, Repr

/-- Member function `begin`. -/
def Pointer.begin (self : Pointer) : Iter :=
  let _size : Int := if self.isArray then toI32 self.arraySize else 1
  { ptr := self.addr, lower := self.addr, upper := self.addr + _size }

/-- Member function `end`. -/
def Pointer.endIter (self : Pointer) : Iter :=
  let _size : Int := if self.isArray then toI32 self.arraySize else 1
  { ptr := self.addr + _size, lower := self.addr, upper := self.addr + _size }

/-! ### A program: the static members, the handles that exist, the deallocations so far -/

/-- State of a program that uses one combination `Pointer<T, size>`. A handle is named
by the position at which it was created; a destroyed handle leaves `none` behind. -/
structure World where
  statics : Statics
  handles : List (Option Pointer)
  released : List Release
  deriving DecidableEq, Repr

/-- Program start: static initialisation, no handle, nothing deallocated. -/
def World.init : World := { statics := Statics.init, handles := [], released := [] }

/-- One use of the interface of `Pointer<T, size>`. -/
inductive Op where
  /-- Declare a handle with `Pointer(t)`. -/
  | construct (t : Addr)
  /-- Declare a handle as a copy of handle `ob`. -/
  | copy (ob : Nat)
  /-- Run `h = t` for a raw address `t`. -/
  | assignRaw (h : Nat) (t : Addr)
  /-- Run `h = rv` for a handle `rv`. -/
  | assign (h : Nat) (rv : Nat)
  /-- End the lifetime of handle `h`. -/
  | destroy (h : Nat)
  /-- Call `collect()`. -/
  | collect
  /-- Call `shutdown()`. -/
  | shutdown
  deriving DecidableEq, Repr

/-- The operations of a handle lifecycle: everything but `collect()` and `shutdown()`. -/
def Op.isLifecycle : Op → Bool
  | .collect => false
  | .shutdown => false
  | _ => true

/-- The live handle named `i`. -/
def World.handle (w : World) (i : Nat) : Except Fault Pointer :=
  match w.handles.getD i none with
  | some h => .ok h
  | none => .error .noSuchHandle

/-- Replace the list of records. -/
def World.setReg (w : World) (reg : List PtrDetails) : World :=
  { w with statics := { w.statics with refContainer := reg } }

/-- Run one operation. -/
def step (size : Int) (w : World) : Op → Except Fault World
  | .construct t =>
    match Pointer.new size w.statics t with
    | (s, h) => .ok { w with statics := s, handles := w.handles ++ [some h] }
  | .copy ob =>
    match w.handle ob with
    | .error f => .error f
    | .ok o =>
      match Pointer.copy w.statics.refContainer o with
      | .error f => .error f
      | .ok (reg, h) => .ok { w.setReg reg with handles := w.handles ++ [some h] }
  | .assignRaw h t =>
    match w.handle h with
    | .error f => .error f
    | .ok self =>
      match Pointer.assignRaw size w.statics.refContainer self t with
      | .error f => .error f
      | .ok (reg, self', _) => .ok { w.setReg reg with handles := w.handles.set h (some self') }
  | .assign h rv =>
    match w.handle h with
    | .error f => .error f
    | .ok self =>
      match w.handle rv with
      | .error f => .error f
      | .ok o =>
        match Pointer.assign w.statics.refContainer self o with
        | .error f => .error f
        | .ok (reg, self') => .ok { w.setReg reg with handles := w.handles.set h (some self') }
  | .destroy h =>
    match w.handle h with
    | .error f => .error f
    | .ok self =>
      match Pointer.destroy w.statics.refContainer self with
      | .error f => .error f
      | .ok (reg, rel) =>
        .ok { w.setReg reg with handles := w.handles.set h none, released := w.released ++ rel }
  | .collect =>
    match collect w.statics.refContainer with
    | .error f => .error f
    | .ok (_, reg, rel) => .ok { w.setReg reg with released := w.released ++ rel }
  | .shutdown =>
    match shutdown w.statics.refContainer with
    | .error f => .error f
    | .ok (reg, rel) => .ok { w.setReg reg with released := w.released ++ rel }

/-- Run a sequence of operations, stopping at the first fault. -/
def run (size : Int) : List Op → World → Except Fault World
  | [], w => .ok w
  | op :: ops, w =>
    match step size w op with
    | .error f => .error f
    | .ok w' => run size ops w'

/-- Whether a handle slot holds a live handle whose address is `a`. -/
def holds (a : Addr) : Option Pointer → Bool
  | some h => decide (h.addr = a)
  | none => false

/-- Number of live handles whose address is `a`. -/
def liveCount (a : Addr) (handles : List (Option Pointer)) : Nat :=
  handles.countP (holds a)

/-- The array shape that `PtrDetails(ptr, size)` gives a record of the combination. -/
def hasShape (size : Int) (p : PtrDetails) : Prop :=
  p.isArray = decide (toU32 size > 0) ∧ p.arraySize = toU32 size

instance (size : Int) (p : PtrDetails) : Decidable (hasShape size p) := by
  unfold hasShape; infer_instance

/-- Addresses of the records whose reference count is zero, in list order. -/
def zeroAddrs (reg : List PtrDetails) : List Addr :=
  (reg.filter fun p => decide (p.refcount = 0)).map PtrDetails.memPtr

/-- The deallocation that `collect` issues for a record with a non-null address. -/
def releaseOf (p : PtrDetails) : Release :=
  if p.isArray then Release.array p.memPtr else Release.scalar p.memPtr

/-- The bookkeeping invariant of a list of records of one combination against the number
`c x` of live handles that hold each address `x`: no two records share an address, every
record has the shape of the combination, every reference count is the number of live
handles on the address, and every address held by a live handle has a record. -/
def RegOK (size : Int) (reg : List PtrDetails) (c : Addr → Nat) : Prop :=
  (reg.map PtrDetails.memPtr).Nodup ∧ (∀ e ∈ reg, hasShape size e) ∧
  (∀ e ∈ reg, e.refcount = c e.memPtr) ∧ (∀ x, 0 < c x → ∃ e ∈ reg, e.memPtr = x)

/-- The bookkeeping invariant of a program state. -/
def World.Inv (size : Int) (w : World) : Prop :=
  RegOK size w.statics.refContainer (fun x => liveCount x w.handles)

/-- No address is held by `2^32` or more live handles. -/
def World.Bounded (w : World) : Prop := ∀ a, liveCount a w.handles < 4294967296

/-- A list of records of the combination with element count 0, used in the examples:
two records with reference count 0 (one of them for the null address) and two in use. -/
def exampleReg : List PtrDetails :=
  [{ refcount := 0, memPtr := 5, isArray := false, arraySize := 0 },
   { refcount := 2, memPtr := 7, isArray := false, arraySize := 0 },
   { refcount := 0, memPtr := 0, isArray := false, arraySize := 0 },
   { refcount := 1, memPtr := 9, isArray := false, arraySize := 0 }]

/-- Static members with the list `exampleReg`, after a first construction. -/
def exampleStatics : Statics := { refContainer := exampleReg, first := false, atexitCalls := 1 }

/-- A sequence of lifecycle operations used in the examples. -/
def exampleOps : List Op :=
  [Op.construct 5, Op.copy 0, Op.assignRaw 0 7, Op.assign 1 0, Op.destroy 0]

/-- The reference count of the record of address `a`: that of the first record whose
address is `a`, `none` when no record has address `a`. -/
def countOf : List PtrDetails → Addr → Option Nat
  | [], _ => none
  | p :: rest, a => if p.memPtr = a then some p.refcount else countOf rest a

/-- The list in which the reference count `c` of the first record of address `a` has become
`f c`, every other record and the order being as before. -/
def setCount (f : Nat → Nat) (a : Addr) : List PtrDetails → List PtrDetails
  | [] => []
  | p :: rest =>
    if p.memPtr = a then { p with refcount := f p.refcount } :: rest
    else p :: setCount f a rest

/-- No two records share an address and every record has the shape of the combination. -/
def RegWF (size : Int) (reg : List PtrDetails) : Prop :=
  (reg.map PtrDetails.memPtr).Nodup ∧ ∀ e ∈ reg, hasShape size e

/-- A sequence of operations with a `collect()` and a `shutdown()`, used in the examples. -/
def exampleOpsAll : List Op :=
  [Op.construct 5, Op.copy 0, Op.assignRaw 0 7, Op.assign 1 0, Op.collect, Op.destroy 0,
   Op.construct 9, Op.shutdown, Op.construct 9, Op.construct 11]

/-! ### Arithmetic of `unsigned` -/

theorem toU32_five : toU32 5 = 5 := by decide

theorem decU32_one : decU32 1 = 0 := by decide

theorem incU32_of_lt {c : Nat} (h : c + 1 < 4294967296) : incU32 c = c + 1 := by
  unfold incU32; omega

theorem decU32_of_pos {c : Nat} (h0 : 0 < c) (h : c < 4294967296) : decU32 c = c - 1 := by
  unfold decU32; omega

theorem new_five (a : Addr) :
    PtrDetails.new a 5 = { refcount := 1, memPtr := a, isArray := true, arraySize := 5 } := by
  unfold PtrDetails.new
  rw [toU32_five]
  rfl

theorem decRefGuarded_one (a : Addr) (b : Bool) (n : Nat) :
    decRefGuarded { refcount := 1, memPtr := a, isArray := b, arraySize := n } =
      { refcount := 0, memPtr := a, isArray := b, arraySize := n } := by
  unfold decRefGuarded decRef
  rw [if_pos (show (1 : Nat) ≠ 0 by decide)]
  show PtrDetails.mk (decU32 1) a b n = _
  rw [decU32_one]

/-! ### The comparison and `std::list::remove` -/

theorem operatorEq_of_shape {size : Int} {e v : PtrDetails}
    (he : hasShape size e) (hv : hasShape size v) :
    operatorEq e v = .ok (decide (e.memPtr = v.memPtr)) := by
  unfold operatorEq
  obtain ⟨h1, h2⟩ := he
  obtain ⟨h3, h4⟩ := hv
  by_cases h : e.memPtr = v.memPtr <;> simp [h, h1, h2, h3, h4]

theorem listRemove_of_shape {size : Int} {v : PtrDetails} (hv : hasShape size v) :
    ∀ reg : List PtrDetails, (∀ e ∈ reg, hasShape size e) →
      listRemove reg v = .ok (reg.filter fun e => !decide (e.memPtr = v.memPtr))
  | [], _ => rfl
  | e :: rest, h => by
    have he : hasShape size e := h e (List.mem_cons_self _ _)
    have ih := listRemove_of_shape hv rest (fun x hx => h x (List.mem_cons_of_mem _ hx))
    unfold listRemove
    rw [operatorEq_of_shape he hv, ih]
    by_cases hm : e.memPtr = v.memPtr <;> simp [hm, List.filter_cons]

theorem collectScan_some {reg : List PtrDetails} {p : PtrDetails}
    (h : collectScan reg = some p) : p ∈ reg ∧ p.refcount = 0 := by
  induction reg with
  | nil => simp [collectScan] at h
  | cons q rest ih =>
    unfold collectScan at h
    by_cases hq : q.refcount > 0
    · rw [if_pos hq] at h
      exact ⟨List.mem_cons_of_mem _ (ih h).1, (ih h).2⟩
    · rw [if_neg hq] at h
      cases h
      exact ⟨List.mem_cons_self _ _, by omega⟩

theorem collectScan_eq_none {reg : List PtrDetails} :
    collectScan reg = none ↔ ∀ p ∈ reg, p.refcount ≠ 0 := by
  induction reg with
  | nil => simp [collectScan]
  | cons q rest ih =>
    unfold collectScan
    by_cases hq : q.refcount > 0
    · rw [if_pos hq, ih]
      simp only [List.mem_cons, forall_eq_or_imp]
      exact ⟨fun h => ⟨by omega, h⟩, fun h => h.2⟩
    · rw [if_neg hq]
      simp only [List.mem_cons, forall_eq_or_imp]
      constructor
      · intro h; cases h
      · intro h; exact absurd h.1 (by omega)

/-! ### The loop of `collect` -/

theorem mem_zeroAddrs {reg : List PtrDetails} {a : Addr} :
    a ∈ zeroAddrs reg ↔ ∃ p ∈ reg, p.refcount = 0 ∧ p.memPtr = a := by
  simp [zeroAddrs, and_assoc]

theorem zeroAddrs_eq_nil {reg : List PtrDetails} :
    zeroAddrs reg = [] ↔ ∀ p ∈ reg, p.refcount ≠ 0 := by
  simp [zeroAddrs, List.filter_eq_nil_iff]

theorem mem_zeroAddrs_filter {reg : List PtrDetails} {a b : Addr} :
    a ∈ zeroAddrs (reg.filter fun e => !decide (e.memPtr = b)) ↔ a ∈ zeroAddrs reg ∧ a ≠ b := by
  simp only [mem_zeroAddrs, List.mem_filter, Bool.not_eq_true', decide_eq_false_iff_not]
  constructor
  · rintro ⟨p, ⟨hp, hne⟩, h0, rfl⟩
    exact ⟨⟨p, hp, h0, rfl⟩, hne⟩
  · rintro ⟨⟨p, hp, h0, rfl⟩, hne⟩
    exact ⟨p, ⟨hp, hne⟩, h0, rfl⟩

theorem count_freeMemory (p : PtrDetails) (a : Addr) :
    ((freeMemory p).map Release.addr).count a = if a ≠ 0 ∧ a = p.memPtr then 1 else 0 := by
  unfold freeMemory
  by_cases h0 : p.memPtr = 0
  · simp only [h0, ne_eq, not_true_eq_false, if_false, List.map_nil, List.count_nil]
    by_cases ha : a = 0 <;> simp [ha]
  · by_cases hb : p.isArray = true
    · by_cases ha : a = p.memPtr
      · subst ha; simp [h0, hb, Release.addr]
      · have : ¬ p.memPtr = a := fun h => ha h.symm
        simp [h0, hb, Release.addr, ha, List.count_cons, this]
    · by_cases ha : a = p.memPtr
      · subst ha; simp [h0, hb, Release.addr]
      · have : ¬ p.memPtr = a := fun h => ha h.symm
        simp [h0, hb, Release.addr, ha, List.count_cons, this]

theorem length_filter_lt_of_mem {reg : List PtrDetails} {p : PtrDetails} (hp : p ∈ reg) :
    (reg.filter fun e => !decide (e.memPtr = p.memPtr)).length < reg.length := by
  induction reg with
  | nil => cases hp
  | cons q rest ih =>
    by_cases hq : q.memPtr = p.memPtr
    · have h1 := List.length_filter_le (fun e => !decide (e.memPtr = p.memPtr)) rest
      simp only [List.filter_cons, hq, decide_True, Bool.not_true, Bool.false_eq_true,
        if_false, List.length_cons]
      omega
    · have hp2 : p ∈ rest := by
        rcases List.mem_cons.1 hp with h | h
        · exact absurd (by rw [h]) hq
        · exact h
      have := ih hp2
      simp only [List.filter_cons, hq, decide_False, Bool.not_false, if_true,
        List.length_cons]
      omega

/-- What the loop of `collect` computes on a list whose records all have the shape of the
combination, whenever the bound on the iterations exceeds the length of the list. -/
theorem collectLoop_spec (size : Int) :
    ∀ (fuel : Nat) (reg : List PtrDetails) (mf : Bool) (rel : List Release),
      (∀ e ∈ reg, hasShape size e) → reg.length < fuel →
      ∃ new : List Release,
        collectLoop fuel reg mf rel =
          .ok (mf || decide (zeroAddrs reg ≠ []),
               reg.filter (fun e => !decide (e.memPtr ∈ zeroAddrs reg)), rel ++ new)
        ∧ (∀ x ∈ new, ∃ p ∈ reg, p.refcount = 0 ∧ x ∈ freeMemory p)
        ∧ (∀ a, (new.map Release.addr).count a = if a ≠ 0 ∧ a ∈ zeroAddrs reg then 1 else 0) := by
  intro fuel
  induction fuel with
  | zero => intro reg mf rel _ h; omega
  | succ fuel ih =>
    intro reg mf rel hshape hlen
    unfold collectLoop
    cases hscan : collectScan reg with
    | none =>
      have hz : zeroAddrs reg = [] := zeroAddrs_eq_nil.2 (collectScan_eq_none.1 hscan)
      refine ⟨[], ?_, ?_, ?_⟩
      · simp [hz]
      · intro x hx; cases hx
      · intro a; simp [hz]
    | some p =>
      obtain ⟨hp, hp0⟩ := collectScan_some hscan
      have hpz : p.memPtr ∈ zeroAddrs reg := mem_zeroAddrs.2 ⟨p, hp, hp0, rfl⟩
      have hrm := listRemove_of_shape (hshape p hp) reg hshape
      simp only [hrm]
      have hshape1 : ∀ e ∈ reg.filter (fun e => !decide (e.memPtr = p.memPtr)), hasShape size e :=
        fun e he => hshape e (List.mem_filter.1 he).1
      have hlen1 := length_filter_lt_of_mem hp
      obtain ⟨new1, h1, h2, h3⟩ := ih _ true (rel ++ freeMemory p) hshape1 (by omega)
      refine ⟨freeMemory p ++ new1, ?_, ?_, ?_⟩
      · rw [h1]
        have hne : zeroAddrs reg ≠ [] := fun h => by rw [h] at hpz; cases hpz
        have hfil : (reg.filter fun e => !decide (e.memPtr = p.memPtr)).filter
              (fun e => !decide (e.memPtr ∈
                zeroAddrs (reg.filter fun e => !decide (e.memPtr = p.memPtr)))) =
            reg.filter (fun e => !decide (e.memPtr ∈ zeroAddrs reg)) := by
          rw [List.filter_filter]
          apply List.filter_congr
          intro x _
          by_cases hx : x.memPtr = p.memPtr
          · simp [hx, hpz]
          · simp [hx, mem_zeroAddrs_filter]
        simp [hfil, hne, List.append_assoc]
      · intro x hx
        rcases List.mem_append.1 hx with h | h
        · exact ⟨p, hp, hp0, h⟩
        · obtain ⟨q, hq, hq0, hxq⟩ := h2 x h
          exact ⟨q, (List.mem_filter.1 hq).1, hq0, hxq⟩
      · intro a
        rw [List.map_append, List.count_append, count_freeMemory, h3]
        by_cases ha0 : a = 0
        · simp [ha0]
        · by_cases hap : a = p.memPtr
          · subst hap
            simp [ha0, hpz, mem_zeroAddrs_filter]
          · simp [ha0, hap, mem_zeroAddrs_filter]

/-- The bound on the iterations does not matter once it exceeds the length of the list. -/
theorem collectLoop_fuel (size : Int) :
    ∀ (fuel fuel' : Nat) (reg : List PtrDetails) (mf : Bool) (rel : List Release),
      (∀ e ∈ reg, hasShape size e) → reg.length < fuel → reg.length < fuel' →
      collectLoop fuel reg mf rel = collectLoop fuel' reg mf rel := by
  intro fuel
  induction fuel with
  | zero => intro fuel' reg mf rel _ h; omega
  | succ fuel ih =>
    intro fuel' reg mf rel hshape h1 h2
    cases fuel' with
    | zero => omega
    | succ fuel' =>
      unfold collectLoop
      cases hscan : collectScan reg with
      | none => rfl
      | some p =>
        obtain ⟨hp, -⟩ := collectScan_some hscan
        simp only [listRemove_of_shape (hshape p hp) reg hshape]
        have hlen := length_filter_lt_of_mem hp
        exact ih fuel' _ _ _ (fun e he => hshape e (List.mem_filter.1 he).1)
          (by omega) (by omega)

/-- Result of `collect` on a list whose records all have the shape of the combination. -/
theorem collect_spec (size : Int) (reg : List PtrDetails) (hshape : ∀ e ∈ reg, hasShape size e) :
    ∃ new : List Release,
      collect reg =
        .ok (decide (zeroAddrs reg ≠ []),
             reg.filter (fun e => !decide (e.memPtr ∈ zeroAddrs reg)), new)
      ∧ (∀ x ∈ new, ∃ p ∈ reg, p.refcount = 0 ∧ x ∈ freeMemory p)
      ∧ (∀ a, (new.map Release.addr).count a = if a ≠ 0 ∧ a ∈ zeroAddrs reg then 1 else 0) := by
  obtain ⟨new, h1, h2, h3⟩ :=
    collectLoop_spec size (reg.length + 1) reg false [] hshape (Nat.lt_succ_self _)
  refine ⟨new, ?_, h2, h3⟩
  unfold collect
  rw [h1]
  simp

theorem no_zero_of_filter {reg : List PtrDetails} :
    ∀ p ∈ reg.filter (fun e => !decide (e.memPtr ∈ zeroAddrs reg)), p.refcount ≠ 0 := by
  intro p hp h0
  obtain ⟨hp1, hp2⟩ := List.mem_filter.1 hp
  have : p.memPtr ∈ zeroAddrs reg := mem_zeroAddrs.2 ⟨p, hp1, h0, rfl⟩
  simp [this] at hp2

theorem collect_of_no_zero {reg : List PtrDetails} (h : ∀ p ∈ reg, p.refcount ≠ 0) :
    collect reg = .ok (false, reg, []) := by
  unfold collect collectLoop
  rw [collectScan_eq_none.2 h]

/-- C3: on every list of records of one combination, `collect` ends with a result and
never reaches the bound on its iterations (any larger bound gives the same result), the
`remove` of every eviction leaves a strictly shorter list, and the list that `collect`
leaves has no record with reference count 0. -/
theorem collect_terminates_no_zero (size : Int) (reg : List PtrDetails)
    (hshape : ∀ e ∈ reg, hasShape size e) :
    (∃ b reg' rel, collect reg = .ok (b, reg', rel)
        ∧ (∀ fuel, reg.length < fuel → collectLoop fuel reg false [] = .ok (b, reg', rel))
        ∧ ∀ p ∈ reg', p.refcount ≠ 0)
    ∧ (∀ p, collectScan reg = some p →
        ∃ reg1, listRemove reg p = .ok reg1 ∧ reg1.length < reg.length) := by
  constructor
  · obtain ⟨new, h1, -, -⟩ := collect_spec size reg hshape
    refine ⟨_, _, _, h1, ?_, no_zero_of_filter⟩
    intro fuel hfuel
    rw [← h1]
    exact collectLoop_fuel size fuel (reg.length + 1) reg false [] hshape hfuel
      (Nat.lt_succ_self _)
  · intro p hp
    obtain ⟨hmem, -⟩ := collectScan_some hp
    exact ⟨_, listRemove_of_shape (hshape p hmem) reg hshape, length_filter_lt_of_mem hmem⟩

/-- C4: on every list of records of one combination, `collect` returns `true` exactly
when the list had a record with reference count 0 at the call, which is exactly when the
list it leaves is shorter than the list it was given. -/
theorem collect_returns_true_iff (size : Int) (reg : List PtrDetails)
    (hshape : ∀ e ∈ reg, hasShape size e) :
    ∃ b reg' rel, collect reg = .ok (b, reg', rel)
      ∧ (b = true ↔ ∃ p ∈ reg, p.refcount = 0)
      ∧ (b = true ↔ reg'.length < reg.length) := by
  obtain ⟨new, h1, -, -⟩ := collect_spec size reg hshape
  refine ⟨_, _, _, h1, ?_, ?_⟩
  · rw [decide_eq_true_iff, Ne, zeroAddrs_eq_nil]
    push_neg
    rfl
  · rw [decide_eq_true_iff, Ne, zeroAddrs_eq_nil, List.length_filter_lt_length_iff_exists]
    push_neg
    constructor
    · rintro ⟨p, hp, h0⟩
      exact ⟨p, hp, by simp [mem_zeroAddrs.2 ⟨p, hp, h0, rfl⟩]⟩
    · rintro ⟨e, _, hx⟩
      have hx' : e.memPtr ∈ zeroAddrs reg := by simpa using hx
      obtain ⟨p, hp, h0, -⟩ := mem_zeroAddrs.1 hx'
      exact ⟨p, hp, h0⟩

/-- C5: on every list of records of one combination, a second `collect` right after a
`collect` returns `false`, issues no deallocation, and leaves the list as the first
`collect` left it. -/
theorem collect_twice (size : Int) (reg : List PtrDetails)
    (hshape : ∀ e ∈ reg, hasShape size e) :
    ∃ b reg' rel, collect reg = .ok (b, reg', rel) ∧ collect reg' = .ok (false, reg', []) := by
  obtain ⟨new, h1, -, -⟩ := collect_spec size reg hshape
  exact ⟨_, _, _, h1, collect_of_no_zero no_zero_of_filter⟩

theorem zeroAddrs_map_zero (reg : List PtrDetails) :
    zeroAddrs (reg.map fun p => { p with refcount := 0 }) = reg.map PtrDetails.memPtr := by
  induction reg with
  | nil => rfl
  | cons q rest ih =>
    simp only [zeroAddrs, List.map_cons, List.filter_cons, decide_True, if_true] at ih ⊢
    rw [ih]

theorem refContainerSize_eq_zero (reg : List PtrDetails) :
    refContainerSize reg = 0 ↔ reg.length % 4294967296 = 0 := by
  unfold refContainerSize toI32
  split <;> omega

/-- On every list of records of one combination whose number of records is not a multiple
of `2^32` (so on every non-empty list of fewer than `2^32` records, also when records
share an address), `shutdown` leaves the list empty and issues exactly one deallocation
for every non-null address that was in the list, and none for any other address, whatever
the reference counts were; on a list whose number of records is a multiple of `2^32`, the
empty list included, the test `refContainerSize() == 0` succeeds and `shutdown` returns at
once. -/
theorem shutdown_releases_all (size : Int) (reg : List PtrDetails)
    (hshape : ∀ e ∈ reg, hasShape size e) :
    (reg.length % 4294967296 ≠ 0 → ∃ rel, shutdown reg = .ok ([], rel)
        ∧ ∀ a, (rel.map Release.addr).count a =
            if a ≠ 0 ∧ a ∈ reg.map PtrDetails.memPtr then 1 else 0)
    ∧ (reg.length % 4294967296 = 0 → shutdown reg = .ok (reg, [])) := by
  constructor
  · intro hne
    have hshape0 : ∀ e ∈ reg.map (fun p => { p with refcount := 0 }), hasShape size e := by
      intro e he
      obtain ⟨q, hq, rfl⟩ := List.mem_map.1 he
      exact hshape q hq
    obtain ⟨new, h1, -, h3⟩ := collect_spec size _ hshape0
    have hlen : ¬ refContainerSize reg = 0 := fun h => hne ((refContainerSize_eq_zero reg).1 h)
    refine ⟨new, ?_, ?_⟩
    · unfold shutdown
      rw [if_neg hlen, h1]
      have : (reg.map fun p => { p with refcount := 0 }).filter
          (fun e => !decide (e.memPtr ∈ zeroAddrs (reg.map fun p => { p with refcount := 0 })))
          = [] := by
        rw [List.filter_eq_nil_iff]
        intro e he
        obtain ⟨q, hq, rfl⟩ := List.mem_map.1 he
        have : q.memPtr ∈ reg.map PtrDetails.memPtr := List.mem_map_of_mem _ hq
        simp [zeroAddrs_map_zero, this]
      simp only [this]
    · intro a
      rw [h3 a, zeroAddrs_map_zero]
  · intro h0
    unfold shutdown
    rw [if_pos ((refContainerSize_eq_zero reg).2 h0)]

/-- On every list of records of one combination with at least one and fewer than `2^32`
records, `shutdown` leaves the list empty and issues exactly one deallocation for every
non-null address that was in the list; on the empty list it changes nothing and issues no
deallocation. -/
theorem shutdown_of_length_lt (size : Int) (reg : List PtrDetails)
    (hshape : ∀ e ∈ reg, hasShape size e) (hlen : reg.length < 4294967296) :
    (reg ≠ [] → ∃ rel, shutdown reg = .ok ([], rel)
        ∧ ∀ a, (rel.map Release.addr).count a =
            if a ≠ 0 ∧ a ∈ reg.map PtrDetails.memPtr then 1 else 0)
    ∧ (reg = [] → shutdown reg = .ok ([], [])) := by
  obtain ⟨h1, h2⟩ := shutdown_releases_all size reg hshape
  constructor
  · intro hne
    have hpos : 0 < reg.length := List.length_pos.2 hne
    exact h1 (by omega)
  · intro he
    subst he
    exact h2 rfl

/-- C8: `operator==` returns `true` exactly when the addresses are equal and both
`isArray` and `arraySize` agree, returns `false` exactly when the addresses differ, throws
`runtime_error` exactly when the addresses are equal and `isArray` or `arraySize` differ;
the reference counts have no influence. -/
theorem operatorEq_cases (a b : PtrDetails) :
    (operatorEq a b = .ok true ↔
        a.memPtr = b.memPtr ∧ a.isArray = b.isArray ∧ a.arraySize = b.arraySize)
    ∧ (operatorEq a b = .ok false ↔ a.memPtr ≠ b.memPtr)
    ∧ (operatorEq a b = .error .runtimeError ↔
        a.memPtr = b.memPtr ∧ (a.isArray ≠ b.isArray ∨ a.arraySize ≠ b.arraySize))
    ∧ (∀ c d : Nat,
        operatorEq { a with refcount := c } { b with refcount := d } = operatorEq a b) := by
  refine ⟨?_, ?_, ?_, fun c d => rfl⟩
  · unfold operatorEq
    by_cases h1 : a.memPtr = b.memPtr <;> by_cases h2 : a.isArray = b.isArray <;>
      by_cases h3 : a.arraySize = b.arraySize <;> simp [h1, h2, h3]
  · unfold operatorEq
    by_cases h1 : a.memPtr = b.memPtr <;> by_cases h2 : a.isArray = b.isArray <;>
      by_cases h3 : a.arraySize = b.arraySize <;> simp [h1, h2, h3]
  · unfold operatorEq
    by_cases h1 : a.memPtr = b.memPtr <;> by_cases h2 : a.isArray = b.isArray <;>
      by_cases h3 : a.arraySize = b.arraySize <;> simp [h1, h2, h3]

theorem mem_freeMemory {x : Release} {q : PtrDetails} (h : x ∈ freeMemory q) :
    q.memPtr ≠ 0 ∧ x = releaseOf q := by
  unfold freeMemory at h
  unfold releaseOf
  by_cases h0 : q.memPtr = 0
  · simp [h0] at h
  · by_cases hb : q.isArray = true
    · simp [h0, hb] at h; exact ⟨h0, by simp [hb, h]⟩
    · simp [h0, hb] at h; exact ⟨h0, by simp [hb, h]⟩

theorem releaseOf_addr (q : PtrDetails) : (releaseOf q).addr = q.memPtr := by
  unfold releaseOf
  by_cases hb : q.isArray = true <;> simp [hb, Release.addr]

/-- The deallocations of one `collect` for the address of a record with reference count 0. -/
theorem collect_release_of_zero (size : Int) (reg : List PtrDetails)
    (hshape : ∀ e ∈ reg, hasShape size e) (p : PtrDetails) (hp : p ∈ reg)
    (hz : p.memPtr ∈ zeroAddrs reg) :
    ∃ rel, collect reg = .ok (decide (zeroAddrs reg ≠ []),
        reg.filter (fun e => !decide (e.memPtr ∈ zeroAddrs reg)), rel)
      ∧ (∀ x ∈ rel, x.addr ≠ 0)
      ∧ (p.memPtr ≠ 0 →
          (rel.map Release.addr).count p.memPtr = 1 ∧ rel.count (releaseOf p) = 1) := by
  obtain ⟨rel, h1, h2, h3⟩ := collect_spec size reg hshape
  refine ⟨rel, h1, ?_, ?_⟩
  · intro x hx
    obtain ⟨q, -, -, hxq⟩ := h2 x hx
    obtain ⟨hq0, rfl⟩ := mem_freeMemory hxq
    rw [releaseOf_addr]; exact hq0
  · intro hne
    have hc : (rel.map Release.addr).count p.memPtr = 1 := by
      rw [h3]; simp [hne, hz]
    refine ⟨hc, ?_⟩
    rw [← hc, List.count_eq_countP, List.count_eq_countP, List.countP_map]
    apply List.countP_congr
    intro x hx
    obtain ⟨q, hq, -, hxq⟩ := h2 x hx
    obtain ⟨-, rfl⟩ := mem_freeMemory hxq
    have hqa : q.isArray = p.isArray := by rw [(hshape q hq).1, (hshape p hp).1]
    simp only [Function.comp, releaseOf_addr, beq_iff_eq]
    constructor
    · intro h; rw [← releaseOf_addr q, h, releaseOf_addr]
    · intro h; unfold releaseOf; rw [hqa, h]

/-! ### Lookup -/

theorem findPtrInfo_eq_none {reg : List PtrDetails} {a : Addr} :
    findPtrInfo reg a = none ↔ ∀ p ∈ reg, p.memPtr ≠ a := by
  induction reg with
  | nil => simp [findPtrInfo]
  | cons q rest ih =>
    unfold findPtrInfo
    by_cases hq : q.memPtr = a
    · simp [hq]
    · simp only [hq, if_false, List.mem_cons, forall_eq_or_imp, ne_eq, not_false_eq_true,
        true_and]
      rw [← ih]
      cases findPtrInfo rest a <;> simp

theorem hasShape_new (size : Int) (a : Addr) : hasShape size (PtrDetails.new a size) :=
  ⟨rfl, rfl⟩

theorem destroy_eq {reg : List PtrDetails} {self : Pointer} {i : Nat} {b : Bool}
    {reg' : List PtrDetails} {rel : List Release}
    (hf : findPtrInfo reg self.addr = some i)
    (hc : collect (modifyAt decRefGuarded i reg) = .ok (b, reg', rel)) :
    Pointer.destroy reg self = .ok (reg', rel) := by
  unfold Pointer.destroy
  simp only [hf, hc]

/-- C7: for every record that `collect` removes from a list of records of one combination,
no deallocation is issued for the null address, and when the address of the record is not
null exactly one deallocation is issued for it, `delete[]` when `isArray` is true and
`delete` when it is false. In particular, with element count 5, a handle constructed over
a non-null address that was not in the list and then destroyed causes exactly one
deallocation of that address, and it is `delete[]`. -/
theorem collect_release_form (size : Int) (reg : List PtrDetails)
    (hshape : ∀ e ∈ reg, hasShape size e) :
    (∃ b reg' rel, collect reg = .ok (b, reg', rel) ∧
      ∀ p ∈ reg, p ∉ reg' →
        (p.memPtr = 0 → ∀ x ∈ rel, x.addr ≠ 0) ∧
        (p.memPtr ≠ 0 →
          (rel.map Release.addr).count p.memPtr = 1 ∧
          rel.count (if p.isArray then Release.array p.memPtr
                     else Release.scalar p.memPtr) = 1))
    ∧ (∀ (s : Statics) (a : Addr), a ≠ 0 → (∀ e ∈ s.refContainer, hasShape 5 e) →
        findPtrInfo s.refContainer a = none →
        ∃ reg' rel,
          Pointer.destroy (Pointer.new 5 s a).1.refContainer (Pointer.new 5 s a).2 =
            .ok (reg', rel)
          ∧ (rel.map Release.addr).count a = 1 ∧ rel.count (Release.array a) = 1) := by
  constructor
  · obtain ⟨rel, h1, -, -⟩ := collect_spec size reg hshape
    refine ⟨_, _, rel, h1, ?_⟩
    intro p hp hnot
    have hz : p.memPtr ∈ zeroAddrs reg := by
      by_contra hz
      exact hnot (List.mem_filter.2 ⟨hp, by simp [hz]⟩)
    obtain ⟨rel2, h4, h5, h6⟩ := collect_release_of_zero size reg hshape p hp hz
    rw [h1] at h4
    have hrel : rel = rel2 := by
      injection h4 with h4; injection h4 with _ h4; injection h4
    subst hrel
    exact ⟨fun _ => h5, h6⟩
  · intro s a ha hs hfind
    have hnew : Pointer.new 5 s a =
        ({ refContainer := PtrDetails.new a 5 :: s.refContainer, first := false,
           atexitCalls := if s.first then s.atexitCalls + 1 else s.atexitCalls },
         { addr := a, arraySize := toU32 5, isArray := decide ((5 : Int) > 0) }) := by
      unfold Pointer.new
      simp only [hfind]
    rw [hnew]
    rw [new_five]
    have hfind2 : findPtrInfo
        ({ refcount := 1, memPtr := a, isArray := true, arraySize := 5 } :: s.refContainer) a =
        some 0 := by
      simp [findPtrInfo]
    have hmod : modifyAt decRefGuarded 0
        ({ refcount := 1, memPtr := a, isArray := true, arraySize := 5 } :: s.refContainer) =
        { refcount := 0, memPtr := a, isArray := true, arraySize := 5 } :: s.refContainer := by
      unfold modifyAt
      rw [decRefGuarded_one]
    have hshape2 : ∀ e ∈ ({ refcount := 0, memPtr := a, isArray := true, arraySize := 5 } ::
        s.refContainer : List PtrDetails), hasShape 5 e := by
      intro e he
      rcases List.mem_cons.1 he with h | h
      · subst h; exact ⟨by rw [toU32_five]; rfl, by rw [toU32_five]⟩
      · exact hs e h
    obtain ⟨rel, h4, -, h6⟩ := collect_release_of_zero 5 _ hshape2
      { refcount := 0, memPtr := a, isArray := true, arraySize := 5 } (List.mem_cons_self _ _)
      (mem_zeroAddrs.2 ⟨_, List.mem_cons_self _ _, rfl, rfl⟩)
    rw [← hmod] at h4
    refine ⟨_, rel, destroy_eq hfind2 h4, ?_⟩
    have := h6 ha
    simpa [releaseOf] using this

/-! ### Two handles over one address -/

theorem incU32_one : incU32 1 = 2 := by decide

theorem decU32_two : decU32 2 = 1 := by decide

theorem new_untracked {size : Int} {s : Statics} {t : Addr}
    (h : findPtrInfo s.refContainer t = none) :
    (Pointer.new size s t).1.refContainer = PtrDetails.new t size :: s.refContainer := by
  unfold Pointer.new
  simp only [h]

theorem new_tracked {size : Int} {s : Statics} {t : Addr} {i : Nat}
    (h : findPtrInfo s.refContainer t = some i) :
    (Pointer.new size s t).1.refContainer = modifyAt incRef i s.refContainer := by
  unfold Pointer.new
  simp only [h]

theorem new_handle (size : Int) (s : Statics) (t : Addr) :
    (Pointer.new size s t).2 =
      { addr := t, arraySize := toU32 size, isArray := decide (size > 0) } := rfl

theorem filter_addr_cons_untracked {r : PtrDetails} {reg : List PtrDetails} {A : Addr}
    (hr : r.memPtr = A) (hA : ∀ e ∈ reg, e.memPtr ≠ A) :
    (r :: reg).filter (fun e => decide (e.memPtr = A)) = [r] := by
  have : reg.filter (fun e => decide (e.memPtr = A)) = [] := by
    rw [List.filter_eq_nil_iff]
    intro e he
    simpa using hA e he
  simp [List.filter_cons, hr, this]

/-- C10: for every list of records of one combination in which address `A` has no record,
constructing two handles over `A` leaves exactly one record for `A`, with reference count
2; destroying either handle then leaves exactly one record for `A`, with reference count
1, and the `collect` run by that destructor issues no deallocation for `A`. -/
theorem two_handles_one_record (size : Int) (s : Statics) (A : Addr)
    (hshape : ∀ e ∈ s.refContainer, hasShape size e)
    (hA : ∀ e ∈ s.refContainer, e.memPtr ≠ A) :
    (Pointer.new size (Pointer.new size s A).1 A).1.refContainer.filter
        (fun e => decide (e.memPtr = A)) =
      [{ refcount := 2, memPtr := A, isArray := decide (toU32 size > 0),
         arraySize := toU32 size }]
    ∧ ∀ h : Pointer,
        h = (Pointer.new size s A).2 ∨ h = (Pointer.new size (Pointer.new size s A).1 A).2 →
        ∃ reg' rel,
          Pointer.destroy (Pointer.new size (Pointer.new size s A).1 A).1.refContainer h =
            .ok (reg', rel)
          ∧ reg'.filter (fun e => decide (e.memPtr = A)) =
              [{ refcount := 1, memPtr := A, isArray := decide (toU32 size > 0),
                 arraySize := toU32 size }]
          ∧ ∀ x ∈ rel, x.addr ≠ A := by
  have hnone : findPtrInfo s.refContainer A = none := findPtrInfo_eq_none.2 hA
  have h1 : (Pointer.new size s A).1.refContainer = PtrDetails.new A size :: s.refContainer :=
    new_untracked hnone
  have hfind1 : findPtrInfo (Pointer.new size s A).1.refContainer A = some 0 := by
    rw [h1]; simp [findPtrInfo, PtrDetails.new]
  have h2 : (Pointer.new size (Pointer.new size s A).1 A).1.refContainer =
      { refcount := 2, memPtr := A, isArray := decide (toU32 size > 0),
        arraySize := toU32 size } :: s.refContainer := by
    rw [new_tracked hfind1, h1]
    unfold modifyAt incRef PtrDetails.new
    show PtrDetails.mk (incU32 1) _ _ _ :: _ = _
    rw [incU32_one]
  rw [h2]
  refine ⟨filter_addr_cons_untracked rfl hA, ?_⟩
  intro h hh
  have haddr : h.addr = A := by
    rcases hh with hh | hh <;> rw [hh, new_handle]
  have hfind2 : findPtrInfo (PtrDetails.mk 2 A (decide (toU32 size > 0)) (toU32 size) ::
      s.refContainer) h.addr = some 0 := by
    rw [haddr]; simp [findPtrInfo]
  have hmod : modifyAt decRefGuarded 0 (PtrDetails.mk 2 A (decide (toU32 size > 0))
      (toU32 size) :: s.refContainer) =
      PtrDetails.mk 1 A (decide (toU32 size > 0)) (toU32 size) :: s.refContainer := by
    unfold modifyAt decRefGuarded decRef
    rw [if_pos (show (2 : Nat) ≠ 0 by decide)]
    show PtrDetails.mk (decU32 2) _ _ _ :: _ = _
    rw [decU32_two]
  have hshape2 : ∀ e ∈ PtrDetails.mk 1 A (decide (toU32 size > 0)) (toU32 size) ::
      s.refContainer, hasShape size e := by
    intro e he
    rcases List.mem_cons.1 he with h | h
    · subst h; exact ⟨rfl, rfl⟩
    · exact hshape e h
  obtain ⟨rel, h4, h5, -⟩ := collect_spec size _ hshape2
  rw [← hmod] at h4
  refine ⟨_, rel, destroy_eq hfind2 h4, ?_, ?_⟩
  · rw [hmod]
    have hAz : A ∉ zeroAddrs (PtrDetails.mk 1 A (decide (toU32 size > 0)) (toU32 size) ::
        s.refContainer) := by
      intro hz
      obtain ⟨q, hq, hq0, hqA⟩ := mem_zeroAddrs.1 hz
      rcases List.mem_cons.1 hq with h | h
      · subst h; simp at hq0
      · exact hA q h hqA
    rw [List.filter_cons]
    simp only [hAz, decide_False, Bool.not_false, if_true]
    apply filter_addr_cons_untracked rfl
    intro e he
    exact hA e (List.mem_filter.1 he).1
  · intro x hx
    obtain ⟨q, hq, hq0, hxq⟩ := h5 x hx
    obtain ⟨-, rfl⟩ := mem_freeMemory hxq
    rw [releaseOf_addr]
    rcases List.mem_cons.1 hq with h | h
    · subst h; simp at hq0
    · exact hA q h

/-! ### The constructor -/

theorem findPtrInfo_append {pre post : List PtrDetails} {r : PtrDetails} {t : Addr}
    (hpre : ∀ q ∈ pre, q.memPtr ≠ t) (hr : r.memPtr = t) :
    findPtrInfo (pre ++ r :: post) t = some pre.length := by
  induction pre with
  | nil => simp [findPtrInfo, hr]
  | cons q pre ih =>
    have hq : q.memPtr ≠ t := hpre q (List.mem_cons_self _ _)
    have := ih (fun x hx => hpre x (List.mem_cons_of_mem _ hx))
    show (if q.memPtr = t then some 0 else
      match findPtrInfo (pre ++ r :: post) t with
      | some i => some (i + 1)
      | none => none) = some (pre.length + 1)
    rw [if_neg hq, this]

theorem modifyAt_append (f : PtrDetails → PtrDetails) (pre post : List PtrDetails)
    (r : PtrDetails) : modifyAt f pre.length (pre ++ r :: post) = pre ++ f r :: post := by
  induction pre with
  | nil => rfl
  | cons q pre ih =>
    show q :: modifyAt f pre.length (pre ++ r :: post) = q :: (pre ++ f r :: post)
    rw [ih]

/-- C9 (as amended): `Pointer(t)` adds one, modulo `2^32`, to the reference count of the
first record whose address is `t` and inserts nothing when such a record exists; otherwise
it inserts exactly one record, the one `PtrDetails(t, size)` builds (address `t`,
reference count 1); in both cases every other record is unchanged and the address of the
new handle is `t`. -/
theorem construct_effect (size : Int) (s : Statics) (t : Addr) :
    (∀ pre r post, s.refContainer = pre ++ r :: post → (∀ q ∈ pre, q.memPtr ≠ t) →
        r.memPtr = t →
        (Pointer.new size s t).1.refContainer =
          pre ++ { r with refcount := (r.refcount + 1) % 4294967296 } :: post)
    ∧ ((∀ q ∈ s.refContainer, q.memPtr ≠ t) →
        (Pointer.new size s t).1.refContainer =
          { refcount := 1, memPtr := t, isArray := decide (toU32 size > 0),
            arraySize := toU32 size } :: s.refContainer)
    ∧ (Pointer.new size s t).2.addr = t := by
  refine ⟨?_, ?_, rfl⟩
  · intro pre r post hs hpre hr
    rw [new_tracked (hs ▸ findPtrInfo_append hpre hr), hs, modifyAt_append]
    rfl
  · intro h
    rw [new_untracked (findPtrInfo_eq_none.2 h)]
    rfl

/-- C9, the claim as stated fails: on the list with the single record (address 7,
reference count `2^32 - 1`) of the combination with element count 0, `Pointer(7)` finds
the record and leaves it with reference count 0, not `2^32`. -/
theorem construct_wraps_at_max :
    findPtrInfo [{ refcount := 4294967295, memPtr := 7, isArray := false, arraySize := 0 }] 7 =
      some 0
    ∧ (Pointer.new 0
        { refContainer := [{ refcount := 4294967295, memPtr := 7, isArray := false,
                             arraySize := 0 }],
          first := false, atexitCalls := 1 } 7).1.refContainer =
      [{ refcount := 0, memPtr := 7, isArray := false, arraySize := 0 }]
    ∧ (0 : Nat) ≠ 4294967295 + 1 := by
  decide

/-! ### The bookkeeping invariant -/

theorem findPtrInfo_some_mem {reg : List PtrDetails} {a : Addr} {i : Nat}
    (h : findPtrInfo reg a = some i) : ∃ e ∈ reg, e.memPtr = a := by
  by_contra hne
  push_neg at hne
  rw [findPtrInfo_eq_none.2 hne] at h
  cases h

theorem findPtrInfo_of_mem {reg : List PtrDetails} {a : Addr} {e : PtrDetails}
    (he : e ∈ reg) (ha : e.memPtr = a) : ∃ i, findPtrInfo reg a = some i := by
  cases h : findPtrInfo reg a with
  | some i => exact ⟨i, rfl⟩
  | none => exact absurd ha (findPtrInfo_eq_none.1 h e he)

/-- With no two records on one address, a write through the iterator that `findPtrInfo`
returns for `a` changes exactly the records whose address is `a`. -/
theorem modifyAt_eq_map (g : PtrDetails → PtrDetails) (a : Addr) :
    ∀ (reg : List PtrDetails) (i : Nat), (reg.map PtrDetails.memPtr).Nodup →
      findPtrInfo reg a = some i →
      modifyAt g i reg = reg.map (fun e => if e.memPtr = a then g e else e)
  | [], _, _, h => by cases h
  | q :: rest, i, hnd, h => by
    rw [List.map_cons, List.nodup_cons] at hnd
    by_cases hq : q.memPtr = a
    · have hi : i = 0 := by
        unfold findPtrInfo at h
        rw [if_pos hq] at h
        exact (Option.some.inj h).symm
      subst hi
      have hrest : rest.map (fun e => if e.memPtr = a then g e else e) = rest := by
        conv_rhs => rw [← List.map_id rest]
        apply List.map_congr_left
        intro e he
        have : e.memPtr ≠ a := fun h2 => hnd.1 (by rw [hq, ← h2]; exact List.mem_map_of_mem _ he)
        simp [this]
      show g q :: rest = _
      rw [List.map_cons, if_pos hq, hrest]
    · unfold findPtrInfo at h
      rw [if_neg hq] at h
      cases hj : findPtrInfo rest a with
      | none => rw [hj] at h; cases h
      | some j =>
        rw [hj] at h
        have hi : i = j + 1 := (Option.some.inj h).symm
        subst hi
        show q :: modifyAt g j rest = _
        rw [modifyAt_eq_map g a rest j hnd.2 hj, List.map_cons, if_neg hq]

/-- Changing the reference count of the record of address `a` to the new number of live
handles on `a` keeps the invariant. -/
theorem regOK_update {size : Int} {reg : List PtrDetails} {c c' : Addr → Nat} {a : Addr}
    {g : PtrDetails → PtrDetails} (h : RegOK size reg c)
    (hg : ∀ e, (g e).memPtr = e.memPtr ∧ (g e).isArray = e.isArray ∧
      (g e).arraySize = e.arraySize)
    (hcount : ∀ e ∈ reg, e.memPtr = a → (g e).refcount = c' a)
    (hother : ∀ x, x ≠ a → c' x = c x) (htracked : ∃ e ∈ reg, e.memPtr = a) :
    RegOK size (reg.map (fun e => if e.memPtr = a then g e else e)) c' := by
  obtain ⟨hN, hS, hR, hT⟩ := h
  have hmem : ∀ e ∈ reg, (if e.memPtr = a then g e else e).memPtr = e.memPtr := by
    intro e _
    by_cases he : e.memPtr = a
    · rw [if_pos he]; exact (hg e).1
    · rw [if_neg he]
  refine ⟨?_, ?_, ?_, ?_⟩
  · have : (reg.map (fun e => if e.memPtr = a then g e else e)).map PtrDetails.memPtr =
        reg.map PtrDetails.memPtr := by
      rw [List.map_map]
      apply List.map_congr_left
      intro e he
      exact hmem e he
    rw [this]; exact hN
  · intro e' he'
    obtain ⟨e, he, rfl⟩ := List.mem_map.1 he'
    by_cases hea : e.memPtr = a
    · rw [if_pos hea]
      exact ⟨(hg e).2.1.trans (hS e he).1, (hg e).2.2.trans (hS e he).2⟩
    · rw [if_neg hea]; exact hS e he
  · intro e' he'
    obtain ⟨e, he, rfl⟩ := List.mem_map.1 he'
    by_cases hea : e.memPtr = a
    · rw [if_pos hea, (hg e).1, hea]
      exact hcount e he hea
    · rw [if_neg hea, hother _ hea]
      exact hR e he
  · intro x hx
    by_cases hxa : x = a
    · obtain ⟨e, he, hea⟩ := htracked
      exact ⟨_, List.mem_map_of_mem _ he, by rw [hmem e he, hea, hxa]⟩
    · rw [hother x hxa] at hx
      obtain ⟨e, he, hex⟩ := hT x hx
      exact ⟨_, List.mem_map_of_mem _ he, by rw [hmem e he, hex]⟩

/-- Inserting the record `PtrDetails(t, size)` for an address without a record, together
with one more live handle on `t`, keeps the invariant. -/
theorem regOK_cons {size : Int} {reg : List PtrDetails} {c c' : Addr → Nat} {t : Addr}
    (h : RegOK size reg c) (hnone : findPtrInfo reg t = none)
    (hc : ∀ x, c' x = c x + if x = t then 1 else 0) :
    RegOK size (PtrDetails.new t size :: reg) c' := by
  obtain ⟨hN, hS, hR, hT⟩ := h
  have hnot := findPtrInfo_eq_none.1 hnone
  have hct : c t = 0 := by
    by_contra h0
    obtain ⟨e, he, het⟩ := hT t (Nat.pos_of_ne_zero h0)
    exact hnot e he het
  refine ⟨?_, ?_, ?_, ?_⟩
  · rw [List.map_cons, List.nodup_cons]
    refine ⟨?_, hN⟩
    intro hmem
    obtain ⟨e, he, het⟩ := List.mem_map.1 hmem
    exact hnot e he het
  · intro e he
    rcases List.mem_cons.1 he with h | h
    · rw [h]; exact hasShape_new size t
    · exact hS e h
  · intro e he
    rcases List.mem_cons.1 he with h | h
    · rw [h, hc]
      show 1 = c t + if t = t then 1 else 0
      rw [hct, if_pos rfl]
    · have hne : e.memPtr ≠ t := hnot e h
      rw [hc, if_neg hne, Nat.add_zero]
      exact hR e h
  · intro x hx
    by_cases hxt : x = t
    · exact ⟨_, List.mem_cons_self _ _, hxt ▸ rfl⟩
    · rw [hc, if_neg hxt, Nat.add_zero] at hx
      obtain ⟨e, he, hex⟩ := hT x hx
      exact ⟨e, List.mem_cons_of_mem _ he, hex⟩

/-- Removing the records that `collect` removes keeps the invariant. -/
theorem regOK_filter {size : Int} {reg : List PtrDetails} {c : Addr → Nat}
    (h : RegOK size reg c) :
    RegOK size (reg.filter (fun e => !decide (e.memPtr ∈ zeroAddrs reg))) c := by
  obtain ⟨hN, hS, hR, hT⟩ := h
  refine ⟨?_, ?_, ?_, ?_⟩
  · exact hN.sublist ((List.filter_sublist _).map _)
  · intro e he; exact hS e (List.mem_filter.1 he).1
  · intro e he; exact hR e (List.mem_filter.1 he).1
  · intro x hx
    obtain ⟨e, he, hex⟩ := hT x hx
    refine ⟨e, List.mem_filter.2 ⟨he, ?_⟩, hex⟩
    have : e.memPtr ∉ zeroAddrs reg := by
      intro hz
      obtain ⟨z, hz1, hz0, hza⟩ := mem_zeroAddrs.1 hz
      have := hR z hz1
      rw [hza, hex, hz0] at this
      omega
    simp [this]

theorem regOK_inc {size : Int} {reg : List PtrDetails} {c c' : Addr → Nat} {t : Addr} {i : Nat}
    (h : RegOK size reg c) (hfind : findPtrInfo reg t = some i)
    (hc : ∀ x, c' x = c x + if x = t then 1 else 0) (hb : c' t < 4294967296) :
    RegOK size (modifyAt incRef i reg) c' := by
  rw [modifyAt_eq_map incRef t reg i h.1 hfind]
  refine @regOK_update size reg c c' t incRef h (fun e => ⟨rfl, rfl, rfl⟩) ?_ ?_
    (findPtrInfo_some_mem hfind)
  · intro e he hea
    have h1 : e.refcount = c t := by rw [← hea]; exact h.2.2.1 e he
    have h2 := hc t
    rw [if_pos rfl] at h2
    have h3 : c t + 1 < 4294967296 := by omega
    show incU32 e.refcount = c' t
    rw [h1, incU32_of_lt h3, h2]
  · intro x hx
    rw [hc x, if_neg hx, Nat.add_zero]

theorem regOK_add {size : Int} {reg : List PtrDetails} {c c' : Addr → Nat} {t : Addr}
    (h : RegOK size reg c) (hc : ∀ x, c' x = c x + if x = t then 1 else 0)
    (hb : c' t < 4294967296) :
    RegOK size (match findPtrInfo reg t with
      | some p => modifyAt incRef p reg
      | none => PtrDetails.new t size :: reg) c' := by
  cases hfind : findPtrInfo reg t with
  | some i => exact regOK_inc h hfind hc hb
  | none => exact regOK_cons h hfind hc

theorem regOK_dec {size : Int} {reg : List PtrDetails} {c c' : Addr → Nat} {a : Addr} {i : Nat}
    (h : RegOK size reg c) (hfind : findPtrInfo reg a = some i)
    (hc : ∀ x, c x = c' x + if x = a then 1 else 0) (hb : c a < 4294967296) :
    RegOK size (modifyAt decRef i reg) c' ∧ RegOK size (modifyAt decRefGuarded i reg) c' := by
  have hca := hc a
  rw [if_pos rfl] at hca
  have hdec : ∀ e ∈ reg, e.memPtr = a → decU32 e.refcount = c' a ∧ e.refcount ≠ 0 := by
    intro e he hea
    have h1 : e.refcount = c a := by rw [← hea]; exact h.2.2.1 e he
    have hpos : 0 < c a := by omega
    rw [h1, decU32_of_pos hpos hb]
    constructor <;> omega
  have hother : ∀ x, x ≠ a → c' x = c x := by
    intro x hx
    rw [hc x, if_neg hx, Nat.add_zero]
  constructor
  · rw [modifyAt_eq_map decRef a reg i h.1 hfind]
    exact @regOK_update size reg c c' a decRef h (fun e => ⟨rfl, rfl, rfl⟩)
      (fun e he hea => (hdec e he hea).1) hother (findPtrInfo_some_mem hfind)
  · rw [modifyAt_eq_map decRefGuarded a reg i h.1 hfind]
    refine @regOK_update size reg c c' a decRefGuarded h ?_ ?_ hother
      (findPtrInfo_some_mem hfind)
    · intro e
      unfold decRefGuarded
      by_cases h0 : e.refcount ≠ 0
      · rw [if_pos h0]; exact ⟨rfl, rfl, rfl⟩
      · rw [if_neg h0]; exact ⟨rfl, rfl, rfl⟩
    · intro e he hea
      unfold decRefGuarded
      rw [if_pos (hdec e he hea).2]
      exact (hdec e he hea).1

/-- A write through an iterator that keeps the addresses keeps every lookup. -/
theorem findPtrInfo_modifyAt (g : PtrDetails → PtrDetails) (hg : ∀ e, (g e).memPtr = e.memPtr)
    (a : Addr) : ∀ (reg : List PtrDetails) (i : Nat),
      findPtrInfo (modifyAt g i reg) a = findPtrInfo reg a
  | [], 0 => rfl
  | [], _ + 1 => rfl
  | q :: rest, 0 => by
    show findPtrInfo (g q :: rest) a = _
    unfold findPtrInfo
    rw [hg q]
  | q :: rest, i + 1 => by
    show findPtrInfo (q :: modifyAt g i rest) a = _
    unfold findPtrInfo
    rw [findPtrInfo_modifyAt g hg a rest i]

/-! ### Counting live handles -/

theorem liveCount_append (x : Addr) (hs : List (Option Pointer)) (h : Pointer) :
    liveCount x (hs ++ [some h]) = liveCount x hs + if x = h.addr then 1 else 0 := by
  unfold liveCount
  rw [List.countP_append]
  by_cases hx : x = h.addr
  · subst hx; simp [holds, List.countP_cons]
  · have : ¬ h.addr = x := fun h2 => hx h2.symm
    simp [holds, List.countP_cons, hx, this]

theorem liveCount_set (x : Addr) (v : Option Pointer) :
    ∀ (hs : List (Option Pointer)) (i : Nat), i < hs.length →
      liveCount x (hs.set i v) + (if holds x (hs.getD i none) = true then 1 else 0) =
        liveCount x hs + (if holds x v = true then 1 else 0)
  | [], _, h => by simp at h
  | u :: rest, 0, _ => by
    simp only [liveCount, List.set_cons_zero, List.countP_cons, List.getD_cons_zero]
    omega
  | u :: rest, i + 1, h => by
    have ih := liveCount_set x v rest i (by simpa using h)
    simp only [liveCount, List.set_cons_succ, List.countP_cons, List.getD_cons_succ] at ih ⊢
    omega

theorem lt_length_of_getD {hs : List (Option Pointer)} {i : Nat} {self : Pointer}
    (h : hs.getD i none = some self) : i < hs.length := by
  by_contra hlt
  rw [List.getD_eq_default _ _ (by omega)] at h
  cases h

theorem liveCount_remove {hs : List (Option Pointer)} {i : Nat} {self : Pointer}
    (h : hs.getD i none = some self) (x : Addr) :
    liveCount x hs = liveCount x (hs.set i none) + if x = self.addr then 1 else 0 := by
  have := liveCount_set x none hs i (lt_length_of_getD h)
  rw [h] at this
  by_cases hx : x = self.addr
  · subst hx; simp [holds] at this ⊢; omega
  · have h2 : ¬ self.addr = x := fun h2 => hx h2.symm
    simp [holds, hx, h2] at this ⊢; omega

theorem liveCount_replace {hs : List (Option Pointer)} {i : Nat} {self : Pointer}
    (h : hs.getD i none = some self) (h' : Pointer) (x : Addr) :
    liveCount x (hs.set i (some h')) =
      liveCount x (hs.set i none) + if x = h'.addr then 1 else 0 := by
  have hlt := lt_length_of_getD h
  have hlt2 : i < (hs.set i none).length := by rw [List.length_set]; exact hlt
  have h1 := liveCount_set x (some h') (hs.set i none) i hlt2
  rw [List.set_set] at h1
  have h2 : (hs.set i none).getD i none = none := by
    rw [List.getD_eq_getElem?_getD, List.getElem?_set_self hlt]
    rfl
  rw [h2] at h1
  by_cases hx : x = h'.addr
  · subst hx; simp [holds] at h1 ⊢; omega
  · have h3 : ¬ h'.addr = x := fun h3 => hx h3.symm
    simp [holds, hx, h3] at h1 ⊢; omega

/-! ### Every lifecycle operation keeps the invariant -/

theorem handle_ok {w : World} {i : Nat} {self : Pointer} (h : w.handle i = .ok self) :
    w.handles.getD i none = some self := by
  unfold World.handle at h
  cases hg : w.handles.getD i none with
  | none => rw [hg] at h; cases h
  | some g => rw [hg] at h; cases h; rfl

theorem handle_error {w : World} {i : Nat} {f : Fault} (h : w.handle i = .error f) :
    f = .noSuchHandle := by
  unfold World.handle at h
  cases hg : w.handles.getD i none with
  | none => rw [hg] at h; cases h; rfl
  | some g => rw [hg] at h; cases h

theorem liveCount_pos {hs : List (Option Pointer)} {i : Nat} {self : Pointer}
    (h : hs.getD i none = some self) : 0 < liveCount self.addr hs := by
  rw [liveCount_remove h self.addr, if_pos rfl]
  omega

theorem tracked_of_pos {size : Int} {reg : List PtrDetails} {c : Addr → Nat} {a : Addr}
    (h : RegOK size reg c) (hpos : 0 < c a) : ∃ p, findPtrInfo reg a = some p := by
  obtain ⟨e, he, hea⟩ := h.2.2.2 a hpos
  exact findPtrInfo_of_mem he hea

theorem destroy_ok {size : Int} {reg : List PtrDetails} {c c' : Addr → Nat} {self : Pointer}
    (h : RegOK size reg c) (hc : ∀ x, c x = c' x + if x = self.addr then 1 else 0)
    (hb : c self.addr < 4294967296) :
    ∃ reg' rel, Pointer.destroy reg self = .ok (reg', rel) ∧ RegOK size reg' c' := by
  have hpos : 0 < c self.addr := by
    have := hc self.addr
    rw [if_pos rfl] at this
    omega
  obtain ⟨p, hp⟩ := tracked_of_pos h hpos
  have h1 := (regOK_dec h hp hc hb).2
  obtain ⟨rel, hcol, -, -⟩ := collect_spec size _ h1.2.1
  exact ⟨_, rel, destroy_eq hp hcol, regOK_filter h1⟩

theorem step_inv {size : Int} {w : World} {op : Op} (hinv : w.Inv size) (hb : w.Bounded)
    (hop : op.isLifecycle = true) :
    (∀ w', step size w op = .ok w' → w'.Bounded → w'.Inv size)
    ∧ (∀ f, step size w op = .error f → f = .noSuchHandle) := by
  cases op with
  | construct t =>
    refine ⟨?_, fun f hf => (by cases hf)⟩
    intro w' hw' hb'
    cases hw'
    have hc : ∀ x, liveCount x (w.handles ++ [some (Pointer.new size w.statics t).2]) =
        liveCount x w.handles + if x = t then 1 else 0 := fun x => liveCount_append x _ _
    exact regOK_add hinv hc (hb' t)
  | copy ob =>
    cases hh : w.handle ob with
    | error f =>
      simp only [step, hh]
      exact ⟨fun w' hw' => (by cases hw'), fun f hf => (by cases hf; exact handle_error hh)⟩
    | ok o =>
      have hg := handle_ok hh
      obtain ⟨p, hp⟩ := tracked_of_pos hinv (liveCount_pos hg)
      simp only [step, hh, Pointer.copy, hp]
      refine ⟨?_, fun f hf => (by cases hf)⟩
      intro w' hw' hb'
      cases hw'
      have hc : ∀ x, liveCount x (w.handles ++
          [some (Pointer.mk o.addr (decide (o.arraySize > 0)) o.arraySize)]) =
          liveCount x w.handles + if x = o.addr then 1 else 0 := fun x => liveCount_append x _ _
      exact regOK_inc hinv hp hc (hb' o.addr)
  | assignRaw h t =>
    cases hh : w.handle h with
    | error f =>
      simp only [step, hh]
      exact ⟨fun w' hw' => (by cases hw'), fun f hf => (by cases hf; exact handle_error hh)⟩
    | ok self =>
      have hg := handle_ok hh
      obtain ⟨p, hp⟩ := tracked_of_pos hinv (liveCount_pos hg)
      simp only [step, hh, Pointer.assignRaw, hp]
      refine ⟨?_, fun f hf => (by cases hf)⟩
      intro w' hw' hb'
      cases hw'
      have h1 := (regOK_dec hinv hp (liveCount_remove hg) (hb self.addr)).1
      have hc : ∀ x, liveCount x (w.handles.set h (some { self with addr := t })) =
          liveCount x (w.handles.set h none) + if x = t then 1 else 0 :=
        fun x => liveCount_replace hg _ x
      exact regOK_add h1 hc (hb' t)
  | assign h rv =>
    cases hh : w.handle h with
    | error f =>
      simp only [step, hh]
      exact ⟨fun w' hw' => (by cases hw'), fun f hf => (by cases hf; exact handle_error hh)⟩
    | ok self =>
      cases hr : w.handle rv with
      | error f =>
        simp only [step, hh, hr]
        exact ⟨fun w' hw' => (by cases hw'), fun f hf => (by cases hf; exact handle_error hr)⟩
      | ok o =>
        have hg := handle_ok hh
        have hgo := handle_ok hr
        obtain ⟨p, hp⟩ := tracked_of_pos hinv (liveCount_pos hg)
        obtain ⟨q, hq⟩ := tracked_of_pos hinv (liveCount_pos hgo)
        have hq' : findPtrInfo (modifyAt decRef p w.statics.refContainer) o.addr = some q := by
          rw [findPtrInfo_modifyAt decRef (fun e => rfl)]; exact hq
        simp only [step, hh, hr, Pointer.assign, hp, hq']
        refine ⟨?_, fun f hf => (by cases hf)⟩
        intro w' hw' hb'
        cases hw'
        have h1 := (regOK_dec hinv hp (liveCount_remove hg) (hb self.addr)).1
        have hc : ∀ x, liveCount x (w.handles.set h (some { self with addr := o.addr })) =
            liveCount x (w.handles.set h none) + if x = o.addr then 1 else 0 :=
          fun x => liveCount_replace hg _ x
        exact regOK_inc h1 hq' hc (hb' o.addr)
  | destroy h =>
    cases hh : w.handle h with
    | error f =>
      simp only [step, hh]
      exact ⟨fun w' hw' => (by cases hw'), fun f hf => (by cases hf; exact handle_error hh)⟩
    | ok self =>
      have hg := handle_ok hh
      obtain ⟨reg', rel, hd, hok⟩ :=
        destroy_ok hinv (liveCount_remove hg) (hb self.addr)
      simp only [step, hh, hd]
      refine ⟨?_, fun f hf => (by cases hf)⟩
      intro w' hw' _
      cases hw'
      exact hok
  | collect => cases hop
  | shutdown => cases hop

/-! ### Sequences of lifecycle operations -/

theorem inv_init (size : Int) : World.init.Inv size := by
  refine ⟨List.nodup_nil, ?_, ?_, ?_⟩
  · intro e he; cases he
  · intro e he; cases he
  · intro x hx
    exact absurd hx (by simp [World.init, liveCount])

theorem run_cons_ok {size : Int} {op : Op} {ops : List Op} {w w1 : World}
    (h : step size w op = .ok w1) : run size (op :: ops) w = run size ops w1 := by
  show (match step size w op with
    | Except.error f => Except.error f
    | Except.ok w' => run size ops w') = _
  rw [h]

theorem run_cons_error {size : Int} {op : Op} {ops : List Op} {w : World} {f : Fault}
    (h : step size w op = .error f) : run size (op :: ops) w = .error f := by
  show (match step size w op with
    | Except.error f => Except.error f
    | Except.ok w' => run size ops w') = _
  rw [h]

/-- Along a sequence of lifecycle operations during which no address is ever held by `2^32`
or more live handles, the invariant is kept and the only possible fault is the use of a
handle that is not live. -/
theorem run_inv {size : Int} :
    ∀ (ops : List Op) (w : World), w.Inv size → (∀ op ∈ ops, op.isLifecycle = true) →
      (∀ k w', run size (ops.take k) w = .ok w' → w'.Bounded) →
      (∀ w', run size ops w = .ok w' → w'.Inv size)
      ∧ (∀ f, run size ops w = .error f → f = .noSuchHandle)
  | [], w, hinv, _, _ => by
    constructor
    · intro w' hw'; cases hw'; exact hinv
    · intro f hf; cases hf
  | op :: ops, w, hinv, hops, hbd => by
    have hb0 : w.Bounded := hbd 0 w rfl
    obtain ⟨h1, h2⟩ := step_inv hinv hb0 (hops op (List.mem_cons_self _ _))
    cases hs : step size w op with
    | error f =>
      rw [run_cons_error hs]
      constructor
      · intro w' hw'; cases hw'
      · intro f' hf'; cases hf'; exact h2 f hs
    | ok w1 =>
      rw [run_cons_ok hs]
      have hb1 : w1.Bounded := hbd 1 w1 (by
        show run size (op :: List.take 0 ops) w = .ok w1
        rw [run_cons_ok hs, List.take_zero]; rfl)
      refine run_inv ops w1 (h1 w1 hs hb1) (fun o ho => hops o (List.mem_cons_of_mem _ ho)) ?_
      intro k w' hw'
      refine hbd (k + 1) w' ?_
      show run size (op :: List.take k ops) w = .ok w'
      rw [run_cons_ok hs]; exact hw'

/-- C1 (as amended): starting from the empty list with no handle, after every finite
sequence of constructions, copy constructions, assignments of a raw address, assignments
of a handle and destructions during which no address is ever held by `2^32` or more live
handles at once, every record has a reference count equal to the number of live handles
that hold its address; and such a sequence runs to its end unless it names a handle that
is not live. -/
theorem refcount_eq_liveCount (size : Int) (ops : List Op)
    (hops : ∀ op ∈ ops, op.isLifecycle = true)
    (hbd : ∀ k w', run size (ops.take k) World.init = .ok w' →
      ∀ a, liveCount a w'.handles < 4294967296) :
    (∀ w, run size ops World.init = .ok w →
        ∀ e ∈ w.statics.refContainer, e.refcount = liveCount e.memPtr w.handles)
    ∧ (∀ f, run size ops World.init = .error f → f = .noSuchHandle) := by
  obtain ⟨h1, h2⟩ := run_inv ops World.init (inv_init size) hops hbd
  exact ⟨fun w hw => (h1 w hw).2.2.1, h2⟩

/-- C2 (as amended): starting from the empty list with no handle, after every finite
sequence of constructions, copy constructions, assignments and destructions during which
no address is ever held by `2^32` or more live handles at once, `findPtrInfo` finds a
record for the address of every live handle, and no operation of the sequence accesses a
member through `refContainer.end()`. -/
theorem live_handles_tracked (size : Int) (ops : List Op)
    (hops : ∀ op ∈ ops, op.isLifecycle = true)
    (hbd : ∀ k w', run size (ops.take k) World.init = .ok w' →
      ∀ a, liveCount a w'.handles < 4294967296) :
    (∀ w, run size ops World.init = .ok w →
        ∀ i h, w.handles.getD i none = some h →
          ∃ p, findPtrInfo w.statics.refContainer h.addr = some p)
    ∧ run size ops World.init ≠ .error .endDeref := by
  obtain ⟨h1, h2⟩ := run_inv ops World.init (inv_init size) hops hbd
  constructor
  · intro w hw i h hg
    exact tracked_of_pos (h1 w hw) (liveCount_pos hg)
  · intro he
    have := h2 _ he
    cases this

/-! ### `2^32` handles on one address -/

theorem run_append {size : Int} :
    ∀ (ops1 ops2 : List Op) (w w1 : World), run size ops1 w = .ok w1 →
      run size (ops1 ++ ops2) w = run size ops2 w1
  | [], _, w, w1, h => by cases h; rfl
  | op :: ops1, ops2, w, w1, h => by
    cases hs : step size w op with
    | error f => rw [run_cons_error hs] at h; cases h
    | ok w2 =>
      rw [run_cons_ok hs] at h
      rw [List.cons_append, run_cons_ok hs]
      exact run_append ops1 ops2 w2 w1 h

theorem step_construct_tracked (size : Int) (a : Addr) (b : Bool) (n ac c : Nat)
    (hs : List (Option Pointer)) (rel : List Release) :
    step size ⟨⟨[⟨c, a, b, n⟩], false, ac⟩, hs, rel⟩ (Op.construct a) =
      .ok ⟨⟨[⟨incU32 c, a, b, n⟩], false, ac⟩,
        hs ++ [some ⟨a, decide (size > 0), toU32 size⟩], rel⟩ := by
  simp [step, Pointer.new, findPtrInfo, modifyAt, incRef]

/-- Constructing `k` more handles over the address of the only record adds `k`, modulo
`2^32`, to its reference count. -/
theorem run_replicate_construct (size : Int) (a : Addr) (b : Bool) (n ac : Nat) :
    ∀ (k c : Nat) (hs : List (Option Pointer)) (rel : List Release), c < 4294967296 →
      run size (List.replicate k (Op.construct a)) ⟨⟨[⟨c, a, b, n⟩], false, ac⟩, hs, rel⟩ =
        .ok ⟨⟨[⟨(c + k) % 4294967296, a, b, n⟩], false, ac⟩,
          hs ++ List.replicate k (some ⟨a, decide (size > 0), toU32 size⟩), rel⟩
  | 0, c, hs, rel, hc => by
    rw [Nat.add_zero, Nat.mod_eq_of_lt hc]
    simp only [List.replicate_zero, List.append_nil]
    rfl
  | k + 1, c, hs, rel, _ => by
    rw [List.replicate_succ, run_cons_ok (step_construct_tracked size a b n ac c hs rel),
      run_replicate_construct size a b n ac k (incU32 c) _ rel (Nat.mod_lt _ (by decide))]
    have h1 : (incU32 c + k) % 4294967296 = (c + (k + 1)) % 4294967296 := by
      unfold incU32; omega
    rw [h1, List.append_assoc, List.singleton_append, List.replicate_succ]

theorem liveCount_replicate (a : Addr) (h : Pointer) (ha : h.addr = a) (k : Nat) :
    liveCount a (List.replicate k (some h)) = k := by
  unfold liveCount
  rw [List.countP_replicate]
  simp [holds, ha]

/-- The state after `2^32` constructions over address 1 from the empty list. -/
theorem run_many_constructs :
    run 0 (List.replicate 4294967296 (Op.construct 1)) World.init =
      .ok ⟨⟨[⟨0, 1, false, 0⟩], false, 1⟩,
        some ⟨1, false, 0⟩ :: List.replicate 4294967295 (some ⟨1, false, 0⟩), []⟩ := by
  have h0 : step 0 World.init (Op.construct 1) =
      .ok ⟨⟨[⟨1, 1, false, 0⟩], false, 1⟩, [some ⟨1, false, 0⟩], []⟩ := by decide
  have h1 := run_replicate_construct 0 1 false 0 1 4294967295 1 [some ⟨1, false, 0⟩] []
    (by decide)
  have h2 : (1 + 4294967295) % 4294967296 = 0 := by decide
  rw [h2] at h1
  show run 0 (Op.construct 1 :: List.replicate 4294967295 (Op.construct 1)) World.init = _
  rw [run_cons_ok h0]
  exact h1

/-- C1, the claim as stated fails: after `2^32` constructions over address 1 (element
count 0, starting from the empty list) the record of address 1 has reference count 0
while `2^32` live handles hold address 1. -/
theorem refcount_wraps_after_many_handles :
    ∃ w, run 0 (List.replicate 4294967296 (Op.construct 1)) World.init = .ok w
      ∧ ∃ e ∈ w.statics.refContainer,
          e.refcount = 0 ∧ liveCount e.memPtr w.handles = 4294967296 := by
  refine ⟨_, run_many_constructs, ⟨0, 1, false, 0⟩, List.mem_singleton.2 rfl, rfl, ?_⟩
  show liveCount 1 (some (Pointer.mk 1 false 0) ::
    List.replicate 4294967295 (some (Pointer.mk 1 false 0))) = _
  rw [← List.replicate_succ, liveCount_replicate 1 _ rfl]

/-- C2, the claim as stated fails: after `2^32` constructions over address 1 (element
count 0, starting from the empty list) and the destruction of the first handle, the list
of records is empty while the second handle is live and holds address 1; destroying it
accesses a member through `refContainer.end()`. -/
theorem live_handle_untracked_after_wrap :
    ∃ w, run 0 (List.replicate 4294967296 (Op.construct 1) ++ [Op.destroy 0]) World.init =
        .ok w
      ∧ w.statics.refContainer = []
      ∧ w.handles.getD 1 none = some ⟨1, false, 0⟩
      ∧ step 0 w (Op.destroy 1) = .error .endDeref := by
  refine ⟨⟨⟨[], false, 1⟩, none :: List.replicate 4294967295 (some ⟨1, false, 0⟩),
    [Release.scalar 1]⟩, ?_, rfl, rfl, rfl⟩
  rw [run_append _ _ _ _ run_many_constructs]
  rfl

/-! ### Short sequences never reach `2^32` handles -/

theorem step_handles_length {size : Int} {w w' : World} {op : Op}
    (h : step size w op = .ok w') : w'.handles.length ≤ w.handles.length + 1 := by
  cases op <;> simp only [step] at h <;> (repeat' split at h) <;> cases h <;>
    simp [World.setReg]

theorem run_handles_length {size : Int} :
    ∀ (ops : List Op) (w w' : World), run size ops w = .ok w' →
      w'.handles.length ≤ w.handles.length + ops.length
  | [], w, w', h => by cases h; simp
  | op :: ops, w, w', h => by
    cases hs : step size w op with
    | error f => rw [run_cons_error hs] at h; cases h
    | ok w1 =>
      rw [run_cons_ok hs] at h
      have h1 := step_handles_length hs
      have h2 := run_handles_length ops w1 w' h
      simp only [List.length_cons]
      omega

/-- A sequence of fewer than `2^32` operations never puts `2^32` live handles on one
address. -/
theorem bounded_of_length {size : Int} {ops : List Op} (hlen : ops.length < 4294967296) :
    ∀ k w', run size (ops.take k) World.init = .ok w' →
      ∀ a, liveCount a w'.handles < 4294967296 := by
  intro k w' h a
  have h1 := run_handles_length _ _ _ h
  have h2 : liveCount a w'.handles ≤ w'.handles.length := List.countP_le_length _
  have h3 : (ops.take k).length ≤ ops.length := by rw [List.length_take]; omega
  have h4 : World.init.handles.length = 0 := rfl
  omega

/-! ### The theorems at concrete inputs -/

/-- C1 (as amended) on the sequence `exampleOps` with element count 0, which runs to its
end. -/
theorem refcount_eq_liveCount_witness :
    ∃ w, run 0 exampleOps World.init = .ok w
      ∧ w.handles = [none, some { addr := 7, isArray := false, arraySize := 0 }]
      ∧ ∀ e ∈ w.statics.refContainer, e.refcount = liveCount e.memPtr w.handles :=
  ⟨_, rfl, rfl,
    (refcount_eq_liveCount 0 exampleOps (by decide) (bounded_of_length (by decide))).1 _ rfl⟩

/-- C2 (as amended) on the sequence `exampleOps` with element count 0, which runs to its
end. -/
theorem live_handles_tracked_witness :
    ∃ w, run 0 exampleOps World.init = .ok w
      ∧ w.handles = [none, some { addr := 7, isArray := false, arraySize := 0 }]
      ∧ ∀ i h, w.handles.getD i none = some h →
          ∃ p, findPtrInfo w.statics.refContainer h.addr = some p :=
  ⟨_, rfl, rfl,
    (live_handles_tracked 0 exampleOps (by decide) (bounded_of_length (by decide))).1 _ rfl⟩

/-- C3 on the list `exampleReg`. -/
theorem collect_terminates_no_zero_witness :
    (∃ b reg' rel, collect exampleReg = .ok (b, reg', rel)
        ∧ (∀ fuel, exampleReg.length < fuel →
            collectLoop fuel exampleReg false [] = .ok (b, reg', rel))
        ∧ ∀ p ∈ reg', p.refcount ≠ 0)
    ∧ (∀ p, collectScan exampleReg = some p →
        ∃ reg1, listRemove exampleReg p = .ok reg1 ∧ reg1.length < exampleReg.length) :=
  collect_terminates_no_zero 0 exampleReg (by decide)

/-- C4 on the list `exampleReg`. -/
theorem collect_returns_true_iff_witness :
    ∃ b reg' rel, collect exampleReg = .ok (b, reg', rel)
      ∧ (b = true ↔ ∃ p ∈ exampleReg, p.refcount = 0)
      ∧ (b = true ↔ reg'.length < exampleReg.length) :=
  collect_returns_true_iff 0 exampleReg (by decide)

/-- C5 on the list `exampleReg`. -/
theorem collect_twice_witness :
    ∃ b reg' rel, collect exampleReg = .ok (b, reg', rel)
      ∧ collect reg' = .ok (false, reg', []) :=
  collect_twice 0 exampleReg (by decide)

/-- The `shutdown` of the list `exampleReg`, which has four records. -/
theorem shutdown_releases_all_witness :
    ∃ rel, shutdown exampleReg = .ok ([], rel)
      ∧ ∀ a, (rel.map Release.addr).count a =
          if a ≠ 0 ∧ a ∈ exampleReg.map PtrDetails.memPtr then 1 else 0 :=
  (shutdown_releases_all 0 exampleReg (by decide)).1 (by decide)

/-- C7 on the list `exampleReg`, and its scenario for address 8 from the empty list. -/
theorem collect_release_form_witness :
    (∃ b reg' rel, collect exampleReg = .ok (b, reg', rel) ∧
      ∀ p ∈ exampleReg, p ∉ reg' →
        (p.memPtr = 0 → ∀ x ∈ rel, x.addr ≠ 0) ∧
        (p.memPtr ≠ 0 →
          (rel.map Release.addr).count p.memPtr = 1 ∧
          rel.count (if p.isArray then Release.array p.memPtr
                     else Release.scalar p.memPtr) = 1))
    ∧ ∃ reg' rel,
        Pointer.destroy (Pointer.new 5 Statics.init 8).1.refContainer
            (Pointer.new 5 Statics.init 8).2 = .ok (reg', rel)
        ∧ (rel.map Release.addr).count 8 = 1 ∧ rel.count (Release.array 8) = 1 :=
  ⟨(collect_release_form 0 exampleReg (by decide)).1,
    (collect_release_form 0 exampleReg (by decide)).2 Statics.init 8 (by decide) (by decide)
      (by decide)⟩

/-- C9 (as amended) for `Pointer(7)` on the list `exampleReg`, whose second record has address 7. -/
theorem construct_effect_witness :
    (Pointer.new 0 exampleStatics 7).1.refContainer =
      [{ refcount := 0, memPtr := 5, isArray := false, arraySize := 0 }] ++
        { refcount := (2 + 1) % 4294967296, memPtr := 7, isArray := false, arraySize := 0 } ::
        [{ refcount := 0, memPtr := 0, isArray := false, arraySize := 0 },
         { refcount := 1, memPtr := 9, isArray := false, arraySize := 0 }] :=
  (construct_effect 0 exampleStatics 7).1
    [{ refcount := 0, memPtr := 5, isArray := false, arraySize := 0 }]
    { refcount := 2, memPtr := 7, isArray := false, arraySize := 0 }
    [{ refcount := 0, memPtr := 0, isArray := false, arraySize := 0 },
     { refcount := 1, memPtr := 9, isArray := false, arraySize := 0 }]
    rfl (by decide) rfl

/-- C10 for address 8, which has no record in `exampleReg`. -/
theorem two_handles_one_record_witness :
    (Pointer.new 0 (Pointer.new 0 exampleStatics 8).1 8).1.refContainer.filter
        (fun e => decide (e.memPtr = 8)) =
      [{ refcount := 2, memPtr := 8, isArray := decide (toU32 0 > 0), arraySize := toU32 0 }]
    ∧ ∀ h : Pointer,
        h = (Pointer.new 0 exampleStatics 8).2 ∨
          h = (Pointer.new 0 (Pointer.new 0 exampleStatics 8).1 8).2 →
        ∃ reg' rel,
          Pointer.destroy (Pointer.new 0 (Pointer.new 0 exampleStatics 8).1 8).1.refContainer h =
            .ok (reg', rel)
          ∧ reg'.filter (fun e => decide (e.memPtr = 8)) =
              [{ refcount := 1, memPtr := 8, isArray := decide (toU32 0 > 0),
                 arraySize := toU32 0 }]
          ∧ ∀ x ∈ rel, x.addr ≠ 8 :=
  two_handles_one_record 0 exampleStatics 8 (by decide) (by decide)


/-! ### The scenario of one scalar address and two handles -/

/-- The destructor of one of two handles on the only record. -/
theorem destroy_count_two (A : Addr) (b b' : Bool) (n n' : Nat) :
    Pointer.destroy [⟨2, A, b, n⟩] ⟨A, b', n'⟩ = .ok ([⟨1, A, b, n⟩], []) := by
  have hf : findPtrInfo [PtrDetails.mk 2 A b n] (Pointer.mk A b' n').addr = some 0 := by
    simp [findPtrInfo]
  have hmod : modifyAt decRefGuarded 0 [PtrDetails.mk 2 A b n] = [PtrDetails.mk 1 A b n] := by
    unfold modifyAt decRefGuarded decRef
    rw [if_pos (show (2 : Nat) ≠ 0 by decide)]
    show [PtrDetails.mk (decU32 2) _ _ _] = _
    rw [decU32_two]
  have hcol : collect (modifyAt decRefGuarded 0 [PtrDetails.mk 2 A b n]) =
      .ok (false, [PtrDetails.mk 1 A b n], []) := by
    rw [hmod]
    exact collect_of_no_zero (by simp)
  exact destroy_eq hf hcol

/-- The destructor of the last handle on the only record, a scalar one. -/
theorem destroy_count_one (A : Addr) (hA : A ≠ 0) (b' : Bool) (n n' : Nat) :
    Pointer.destroy [⟨1, A, false, n⟩] ⟨A, b', n'⟩ = .ok ([], [Release.scalar A]) := by
  have hf : findPtrInfo [PtrDetails.mk 1 A false n] (Pointer.mk A b' n').addr = some 0 := by
    simp [findPtrInfo]
  have hcol : collect (modifyAt decRefGuarded 0 [PtrDetails.mk 1 A false n]) =
      .ok (true, [], [Release.scalar A]) := by
    unfold modifyAt
    rw [decRefGuarded_one]
    simp [collect, collectLoop, collectScan, listRemove, operatorEq, freeMemory, hA]
  exact destroy_eq hf hcol

theorem toU32_zero : toU32 0 = 0 := by decide

/-- C11: with element count 0, from the empty list, for every non-null address `A`:
`Pointer(A)` leaves the record (`A`, reference count 1); the copy of that handle leaves
(`A`, 2); destroying the first handle leaves (`A`, 1) and no deallocation; destroying the
second handle leaves the empty list, with exactly one deallocation, `delete A`, and
`refContainerSize()` is 0 again. -/
theorem scalar_scenario (A : Addr) (hA : A ≠ 0) :
    run 0 [Op.construct A] World.init =
      .ok ⟨⟨[⟨1, A, false, 0⟩], false, 1⟩, [some ⟨A, false, 0⟩], []⟩
    ∧ run 0 [Op.construct A, Op.copy 0] World.init =
      .ok ⟨⟨[⟨2, A, false, 0⟩], false, 1⟩, [some ⟨A, false, 0⟩, some ⟨A, false, 0⟩], []⟩
    ∧ run 0 [Op.construct A, Op.copy 0, Op.destroy 0] World.init =
      .ok ⟨⟨[⟨1, A, false, 0⟩], false, 1⟩, [none, some ⟨A, false, 0⟩], []⟩
    ∧ run 0 [Op.construct A, Op.copy 0, Op.destroy 0, Op.destroy 1] World.init =
      .ok ⟨⟨[], false, 1⟩, [none, none], [Release.scalar A]⟩
    ∧ refContainerSize [] = 0 := by
  have e1 : step 0 World.init (Op.construct A) =
      .ok ⟨⟨[⟨1, A, false, 0⟩], false, 1⟩, [some ⟨A, false, 0⟩], []⟩ := by
    simp [step, Pointer.new, findPtrInfo, World.init, Statics.init, PtrDetails.new, toU32_zero]
  have e2 : step 0 ⟨⟨[⟨1, A, false, 0⟩], false, 1⟩, [some ⟨A, false, 0⟩], []⟩ (Op.copy 0) =
      .ok ⟨⟨[⟨2, A, false, 0⟩], false, 1⟩, [some ⟨A, false, 0⟩, some ⟨A, false, 0⟩], []⟩ := by
    simp [step, World.handle, Pointer.copy, findPtrInfo, modifyAt, incRef, incU32_one,
      World.setReg]
  have e3 : step 0 ⟨⟨[⟨2, A, false, 0⟩], false, 1⟩,
      [some ⟨A, false, 0⟩, some ⟨A, false, 0⟩], []⟩ (Op.destroy 0) =
      .ok ⟨⟨[⟨1, A, false, 0⟩], false, 1⟩, [none, some ⟨A, false, 0⟩], []⟩ := by
    simp only [step, World.handle, List.getD_cons_zero, destroy_count_two, World.setReg,
      List.set_cons_zero, List.append_nil]
  have e4 : step 0 ⟨⟨[⟨1, A, false, 0⟩], false, 1⟩, [none, some ⟨A, false, 0⟩], []⟩
      (Op.destroy 1) = .ok ⟨⟨[], false, 1⟩, [none, none], [Release.scalar A]⟩ := by
    simp only [step, World.handle, List.getD_cons_succ, List.getD_cons_zero,
      destroy_count_one A hA, World.setReg, List.set_cons_succ, List.set_cons_zero,
      List.nil_append]
  refine ⟨?_, ?_, ?_, ?_, by decide⟩
  · rw [run_cons_ok e1]; rfl
  · rw [run_cons_ok e1, run_cons_ok e2]; rfl
  · rw [run_cons_ok e1, run_cons_ok e2, run_cons_ok e3]; rfl
  · rw [run_cons_ok e1, run_cons_ok e2, run_cons_ok e3, run_cons_ok e4]; rfl

/-- C11 for address 8. -/
theorem scalar_scenario_witness :
    run 0 [Op.construct 8, Op.copy 0, Op.destroy 0] World.init =
      .ok ⟨⟨[⟨1, 8, false, 0⟩], false, 1⟩, [none, some ⟨8, false, 0⟩], []⟩
    ∧ run 0 [Op.construct 8, Op.copy 0, Op.destroy 0, Op.destroy 1] World.init =
      .ok ⟨⟨[], false, 1⟩, [none, none], [Release.scalar 8]⟩ :=
  ⟨(scalar_scenario 8 (by decide)).2.2.1, (scalar_scenario 8 (by decide)).2.2.2.1⟩

/-! ### The record of an address and its reference count -/

theorem countOf_eq_none {reg : List PtrDetails} {a : Addr} :
    countOf reg a = none ↔ ∀ p ∈ reg, p.memPtr ≠ a := by
  induction reg with
  | nil => simp [countOf]
  | cons q rest ih =>
    unfold countOf
    by_cases hq : q.memPtr = a
    · simp [hq]
    · simp only [hq, if_false, List.mem_cons, forall_eq_or_imp, ne_eq, not_false_eq_true,
        true_and]
      exact ih

theorem findPtrInfo_of_countOf {reg : List PtrDetails} {a : Addr} {c : Nat}
    (h : countOf reg a = some c) : ∃ i, findPtrInfo reg a = some i := by
  cases hf : findPtrInfo reg a with
  | some i => exact ⟨i, rfl⟩
  | none =>
    rw [countOf_eq_none.2 (findPtrInfo_eq_none.1 hf)] at h
    cases h

theorem countOf_of_findPtrInfo {reg : List PtrDetails} {a : Addr} {i : Nat}
    (h : findPtrInfo reg a = some i) : ∃ c, countOf reg a = some c := by
  cases hc : countOf reg a with
  | some c => exact ⟨c, rfl⟩
  | none =>
    rw [findPtrInfo_eq_none.2 (countOf_eq_none.1 hc)] at h
    cases h

/-- A write through the iterator that `findPtrInfo` returns for `a`, when it changes only
the reference count of the record, from `c` to `f c`. -/
theorem modifyAt_eq_setCount (g : PtrDetails → PtrDetails) (f : Nat → Nat) (a : Addr) :
    ∀ (reg : List PtrDetails) (i : Nat), findPtrInfo reg a = some i →
      (∀ c, countOf reg a = some c →
        ∀ e : PtrDetails, e.refcount = c → g e = { e with refcount := f c }) →
      modifyAt g i reg = setCount f a reg
  | [], _, h, _ => by cases h
  | q :: rest, i, h, hg => by
    by_cases hq : q.memPtr = a
    · have hi : i = 0 := by
        unfold findPtrInfo at h
        rw [if_pos hq] at h
        exact (Option.some.inj h).symm
      subst hi
      have hc : countOf (q :: rest) a = some q.refcount := by
        unfold countOf; rw [if_pos hq]
      show g q :: rest = setCount f a (q :: rest)
      unfold setCount
      rw [if_pos hq, hg _ hc q rfl]
    · unfold findPtrInfo at h
      rw [if_neg hq] at h
      cases hj : findPtrInfo rest a with
      | none => rw [hj] at h; cases h
      | some j =>
        rw [hj] at h
        have hi : i = j + 1 := (Option.some.inj h).symm
        subst hi
        have hc : countOf (q :: rest) a = countOf rest a := by
          show (if q.memPtr = a then some q.refcount else countOf rest a) = _
          rw [if_neg hq]
        show q :: modifyAt g j rest = setCount f a (q :: rest)
        unfold setCount
        rw [if_neg hq, modifyAt_eq_setCount g f a rest j hj (fun c h1 => hg c (hc ▸ h1))]

theorem map_memPtr_setCount (f : Nat → Nat) (a : Addr) (reg : List PtrDetails) :
    (setCount f a reg).map PtrDetails.memPtr = reg.map PtrDetails.memPtr := by
  induction reg with
  | nil => rfl
  | cons q rest ih =>
    unfold setCount
    by_cases hq : q.memPtr = a
    · rw [if_pos hq]; rfl
    · rw [if_neg hq, List.map_cons, List.map_cons, ih]

theorem countOf_setCount_self (f : Nat → Nat) (a : Addr) (reg : List PtrDetails) :
    countOf (setCount f a reg) a = (countOf reg a).map f := by
  induction reg with
  | nil => rfl
  | cons q rest ih =>
    unfold setCount
    by_cases hq : q.memPtr = a
    · rw [if_pos hq]
      unfold countOf
      rw [if_pos hq, if_pos hq]
      rfl
    · rw [if_neg hq]
      unfold countOf
      rw [if_neg hq, if_neg hq]
      exact ih

theorem countOf_setCount_ne (f : Nat → Nat) {a b : Addr} (hab : b ≠ a)
    (reg : List PtrDetails) : countOf (setCount f a reg) b = countOf reg b := by
  induction reg with
  | nil => rfl
  | cons q rest ih =>
    unfold setCount
    by_cases hq : q.memPtr = a
    · rw [if_pos hq]
      have hqb : ¬ q.memPtr = b := fun h => hab (h.symm.trans hq)
      unfold countOf
      rw [if_neg hqb, if_neg hqb]
    · rw [if_neg hq]
      unfold countOf
      by_cases hqb : q.memPtr = b
      · rw [if_pos hqb, if_pos hqb]
      · rw [if_neg hqb, if_neg hqb]
        exact ih

theorem setCount_setCount (f g : Nat → Nat) (a : Addr) (reg : List PtrDetails) :
    setCount g a (setCount f a reg) = setCount (fun k => g (f k)) a reg := by
  induction reg with
  | nil => rfl
  | cons q rest ih =>
    by_cases hq : q.memPtr = a
    · simp only [setCount, hq, if_true]
    · simp only [setCount, hq, if_false, ih]

theorem setCount_eq_self {f : Nat → Nat} {a : Addr} {reg : List PtrDetails} {c : Nat}
    (hc : countOf reg a = some c) (hf : f c = c) : setCount f a reg = reg := by
  induction reg with
  | nil => rfl
  | cons q rest ih =>
    unfold countOf at hc
    unfold setCount
    by_cases hq : q.memPtr = a
    · rw [if_pos hq] at hc
      rw [if_pos hq, Option.some.inj hc, hf, ← Option.some.inj hc]
    · rw [if_neg hq] at hc
      rw [if_neg hq, ih hc]

theorem hasShape_setCount {size : Int} {f : Nat → Nat} {a : Addr} {reg : List PtrDetails}
    (h : ∀ e ∈ reg, hasShape size e) : ∀ e ∈ setCount f a reg, hasShape size e := by
  induction reg with
  | nil => intro e he; cases he
  | cons q rest ih =>
    have hq0 : hasShape size q := h q (List.mem_cons_self _ _)
    have hrest : ∀ e ∈ rest, hasShape size e := fun e he => h e (List.mem_cons_of_mem _ he)
    unfold setCount
    by_cases hq : q.memPtr = a
    · rw [if_pos hq]
      intro e he
      rcases List.mem_cons.1 he with h1 | h1
      · rw [h1]; exact hq0
      · exact hrest e h1
    · rw [if_neg hq]
      intro e he
      rcases List.mem_cons.1 he with h1 | h1
      · rw [h1]; exact hq0
      · exact ih hrest e h1


theorem countOf_some_mem {reg : List PtrDetails} {a : Addr} {c : Nat}
    (h : countOf reg a = some c) : ∃ p ∈ reg, p.memPtr = a ∧ p.refcount = c := by
  induction reg with
  | nil => cases h
  | cons q rest ih =>
    unfold countOf at h
    by_cases hq : q.memPtr = a
    · rw [if_pos hq] at h
      exact ⟨q, List.mem_cons_self _ _, hq, Option.some.inj h⟩
    · rw [if_neg hq] at h
      obtain ⟨p, hp, h1, h2⟩ := ih h
      exact ⟨p, List.mem_cons_of_mem _ hp, h1, h2⟩

theorem modifyAt_decRef {reg : List PtrDetails} {a : Addr} {c i : Nat}
    (hc : countOf reg a = some c) (h1 : 1 ≤ c) (h2 : c < 4294967296)
    (hi : findPtrInfo reg a = some i) :
    modifyAt decRef i reg = setCount (fun k => k - 1) a reg := by
  apply modifyAt_eq_setCount decRef (fun k => k - 1) a reg i hi
  intro c' hc' e he
  have hcc : c' = c := Option.some.inj (hc'.symm.trans hc)
  subst hcc
  unfold decRef
  rw [he, decU32_of_pos (by omega) h2]

theorem modifyAt_incRef {reg : List PtrDetails} {a : Addr} {i : Nat}
    (hi : findPtrInfo reg a = some i) :
    modifyAt incRef i reg = setCount (fun k => (k + 1) % 4294967296) a reg := by
  apply modifyAt_eq_setCount incRef (fun k => (k + 1) % 4294967296) a reg i hi
  intro c' _ e he
  unfold incRef incU32
  rw [he]

theorem step_assignRaw_released {size : Int} {w w' : World} {h : Nat} {t : Addr}
    (hs : step size w (Op.assignRaw h t) = .ok w') : w'.released = w.released := by
  simp only [step] at hs
  (repeat' split at hs) <;> cases hs
  rfl


/-! ### Assignment of a raw address -/

/-- C12 (as amended): for every list of records of one combination, every handle whose
address has a record with reference count `c`, `1 ≤ c < 2^32`, and every raw address `t`:
`operator=(T *t)` lowers the count of the record of the handle's address by one, then adds
one modulo `2^32` to the count of the record of `t` when there is one and otherwise
inserts the record (`t`, reference count 1) in front; the handle's address becomes `t` and
`t` is returned; no record is removed and nothing is deallocated, so that a record whose
count reached 0 stays in the list, and the next `collect` removes it. -/
theorem assignRaw_effect (size : Int) (reg : List PtrDetails) (self : Pointer) (t : Addr)
    (c : Nat) (hshape : ∀ e ∈ reg, hasShape size e)
    (hc : countOf reg self.addr = some c) (h1 : 1 ≤ c) (h2 : c < 4294967296) :
    ∃ reg2,
      Pointer.assignRaw size reg self t = .ok (reg2, { self with addr := t }, t)
      ∧ reg2 = (match countOf (setCount (fun k => k - 1) self.addr reg) t with
          | some _ =>
            setCount (fun k => (k + 1) % 4294967296) t (setCount (fun k => k - 1) self.addr reg)
          | none =>
            PtrDetails.mk 1 t (decide (toU32 size > 0)) (toU32 size) ::
              setCount (fun k => k - 1) self.addr reg)
      ∧ (reg2.map PtrDetails.memPtr = reg.map PtrDetails.memPtr
          ∨ reg2.map PtrDetails.memPtr = t :: reg.map PtrDetails.memPtr)
      ∧ (∀ (w w' : World) (h : Nat),
          step size w (Op.assignRaw h t) = .ok w' → w'.released = w.released)
      ∧ (c = 1 → t ≠ self.addr →
          countOf reg2 self.addr = some 0
          ∧ ∃ reg3 rel, collect reg2 = .ok (true, reg3, rel)
              ∧ ∀ e ∈ reg3, e.memPtr ≠ self.addr) := by
  obtain ⟨p, hp⟩ := findPtrInfo_of_countOf hc
  have hreg1 := modifyAt_decRef hc h1 h2 hp
  have hshape1 : ∀ e ∈ setCount (fun k => k - 1) self.addr reg, hasShape size e :=
    hasShape_setCount hshape
  have hcount1 : countOf (setCount (fun k => k - 1) self.addr reg) self.addr = some (c - 1) := by
    rw [countOf_setCount_self, hc]; rfl
  -- the list after the second step, its addresses, its shapes, and the count of the old address
  have key : ∃ reg2,
      Pointer.assignRaw size reg self t = .ok (reg2, { self with addr := t }, t)
      ∧ reg2 = (match countOf (setCount (fun k => k - 1) self.addr reg) t with
          | some _ =>
            setCount (fun k => (k + 1) % 4294967296) t (setCount (fun k => k - 1) self.addr reg)
          | none =>
            PtrDetails.mk 1 t (decide (toU32 size > 0)) (toU32 size) ::
              setCount (fun k => k - 1) self.addr reg)
      ∧ (reg2.map PtrDetails.memPtr = reg.map PtrDetails.memPtr
          ∨ reg2.map PtrDetails.memPtr = t :: reg.map PtrDetails.memPtr)
      ∧ (∀ e ∈ reg2, hasShape size e)
      ∧ (t ≠ self.addr → countOf reg2 self.addr = some (c - 1)) := by
    cases hq : findPtrInfo (setCount (fun k => k - 1) self.addr reg) t with
    | some q =>
      obtain ⟨d, hd⟩ := countOf_of_findPtrInfo hq
      refine ⟨setCount (fun k => (k + 1) % 4294967296) t
        (setCount (fun k => k - 1) self.addr reg), ?_, ?_, ?_, ?_, ?_⟩
      · unfold Pointer.assignRaw
        simp only [hp, hreg1, hq, modifyAt_incRef hq]
      · rw [hd]
      · left
        rw [map_memPtr_setCount, map_memPtr_setCount]
      · exact hasShape_setCount hshape1
      · intro hne
        rw [countOf_setCount_ne _ (Ne.symm hne), hcount1]
    | none =>
      have hd : countOf (setCount (fun k => k - 1) self.addr reg) t = none :=
        countOf_eq_none.2 (findPtrInfo_eq_none.1 hq)
      refine ⟨PtrDetails.mk 1 t (decide (toU32 size > 0)) (toU32 size) ::
        setCount (fun k => k - 1) self.addr reg, ?_, ?_, ?_, ?_, ?_⟩
      · unfold Pointer.assignRaw
        simp only [hp, hreg1, hq]
        rfl
      · rw [hd]
      · right
        rw [List.map_cons, map_memPtr_setCount]
      · intro e he
        rcases List.mem_cons.1 he with h | h
        · rw [h]; exact ⟨rfl, rfl⟩
        · exact hshape1 e h
      · intro hne
        show (if t = self.addr then some 1
          else countOf (setCount (fun k => k - 1) self.addr reg) self.addr) = _
        rw [if_neg hne, hcount1]
  obtain ⟨reg2, e1, e2, e3, e4, e5⟩ := key
  refine ⟨reg2, e1, e2, e3, fun w w' h hs => step_assignRaw_released hs, ?_⟩
  intro hc1 hne
  have h0 : countOf reg2 self.addr = some 0 := by rw [e5 hne, hc1]
  refine ⟨h0, ?_⟩
  obtain ⟨z, hz, hza, hz0⟩ := countOf_some_mem h0
  have hmem : self.addr ∈ zeroAddrs reg2 := mem_zeroAddrs.2 ⟨z, hz, hz0, hza⟩
  obtain ⟨rel, hcol, -, -⟩ := collect_spec size reg2 e4
  have hne0 : zeroAddrs reg2 ≠ [] := fun h => by rw [h] at hmem; cases hmem
  rw [decide_eq_true hne0] at hcol
  refine ⟨_, rel, hcol, ?_⟩
  intro e he heq
  have := (List.mem_filter.1 he).2
  rw [heq] at this
  simp [hmem] at this


/-- C12, the claim as stated fails: on the list with the records (address 5, reference
count 1) and (address 7, reference count `2^32 - 1`), element count 0, assigning the raw
address 7 to a handle on address 5 leaves the record of address 7 with reference count 0,
not `2^32`. -/
theorem assignRaw_wraps_at_max :
    countOf [⟨1, 5, false, 0⟩, ⟨4294967295, 7, false, 0⟩] 5 = some 1
    ∧ Pointer.assignRaw 0 [⟨1, 5, false, 0⟩, ⟨4294967295, 7, false, 0⟩] ⟨5, false, 0⟩ 7 =
        .ok ([⟨0, 5, false, 0⟩, ⟨0, 7, false, 0⟩], ⟨7, false, 0⟩, 7)
    ∧ (0 : Nat) ≠ 4294967295 + 1 := by
  decide

/-! ### Assignment of a handle -/

/-- C13 (as amended): for every list of records and every two handles `self` and `rv` whose
addresses have records, the one of `self` with reference count `c`, `1 ≤ c < 2^32`, the one
of `rv` with reference count `d`: `operator=(Pointer &rv)` lowers the count of the record
of `self`'s address by one and adds one modulo `2^32` to the count of the record of `rv`'s
address, sets the address of `self` to that of `rv`, and neither inserts nor removes a
record; when both hold the same address the list is left as it was. -/
theorem assign_effect (reg : List PtrDetails) (self rv : Pointer) (c d : Nat)
    (hc : countOf reg self.addr = some c) (h1 : 1 ≤ c) (h2 : c < 4294967296)
    (hd : countOf reg rv.addr = some d) :
    ∃ reg2,
      Pointer.assign reg self rv = .ok (reg2, { self with addr := rv.addr })
      ∧ reg2 = setCount (fun k => (k + 1) % 4294967296) rv.addr
          (setCount (fun k => k - 1) self.addr reg)
      ∧ reg2.map PtrDetails.memPtr = reg.map PtrDetails.memPtr
      ∧ (self.addr ≠ rv.addr →
          countOf reg2 self.addr = some (c - 1)
          ∧ countOf reg2 rv.addr = some ((d + 1) % 4294967296))
      ∧ (∀ b, b ≠ self.addr → b ≠ rv.addr → countOf reg2 b = countOf reg b)
      ∧ (self.addr = rv.addr → reg2 = reg) := by
  obtain ⟨p, hp⟩ := findPtrInfo_of_countOf hc
  obtain ⟨q, hq⟩ := findPtrInfo_of_countOf hd
  have hreg1 := modifyAt_decRef hc h1 h2 hp
  have hq1 : findPtrInfo (setCount (fun k => k - 1) self.addr reg) rv.addr = some q := by
    rw [← hreg1, findPtrInfo_modifyAt decRef (fun e => rfl)]
    exact hq
  refine ⟨_, ?_, rfl, ?_, ?_, ?_, ?_⟩
  · unfold Pointer.assign
    simp only [hp, hreg1, hq1, modifyAt_incRef hq1]
  · rw [map_memPtr_setCount, map_memPtr_setCount]
  · intro hne
    constructor
    · rw [countOf_setCount_ne _ hne, countOf_setCount_self, hc]; rfl
    · rw [countOf_setCount_self, countOf_setCount_ne _ (Ne.symm hne), hd]; rfl
  · intro b hb1 hb2
    rw [countOf_setCount_ne _ hb2, countOf_setCount_ne _ hb1]
  · intro heq
    rw [← heq, setCount_setCount]
    exact setCount_eq_self hc (by show (c - 1 + 1) % 4294967296 = c; omega)

/-- C13, the claim as stated fails: on the list with the records (address 5, reference
count 1) and (address 7, reference count `2^32 - 1`), assigning a handle on address 7 to a
handle on address 5 leaves the record of address 7 with reference count 0, not `2^32`. -/
theorem assign_wraps_at_max :
    countOf [⟨1, 5, false, 0⟩, ⟨4294967295, 7, false, 0⟩] 5 = some 1
    ∧ countOf [⟨1, 5, false, 0⟩, ⟨4294967295, 7, false, 0⟩] 7 = some 4294967295
    ∧ Pointer.assign [⟨1, 5, false, 0⟩, ⟨4294967295, 7, false, 0⟩] ⟨5, false, 0⟩
        ⟨7, false, 0⟩ = .ok ([⟨0, 5, false, 0⟩, ⟨0, 7, false, 0⟩], ⟨7, false, 0⟩)
    ∧ (0 : Nat) ≠ 4294967295 + 1 := by
  decide


/-! ### The destructor -/

theorem modifyAt_decRefGuarded {reg : List PtrDetails} {a : Addr} {c i : Nat}
    (hc : countOf reg a = some c) (h2 : c < 4294967296) (hi : findPtrInfo reg a = some i) :
    modifyAt decRefGuarded i reg = setCount (fun k => if 0 < k then k - 1 else 0) a reg := by
  apply modifyAt_eq_setCount decRefGuarded (fun k => if 0 < k then k - 1 else 0) a reg i hi
  intro c' hc' e he
  have hcc : c' = c := Option.some.inj (hc'.symm.trans hc)
  subst hcc
  unfold decRefGuarded
  by_cases h0 : 0 < c'
  · have hne : e.refcount ≠ 0 := by omega
    rw [if_pos hne, if_pos h0]
    unfold decRef
    rw [he, decU32_of_pos h0 h2]
  · have h00 : e.refcount = 0 := by omega
    have hne : ¬ e.refcount ≠ 0 := fun h => h h00
    rw [if_neg hne, if_neg h0, ← h00]

/-- C16: for every list of records of one combination and every handle whose address has a
record, with reference count `c` (an `unsigned`, so `c < 2^32`): the destructor leaves the
count at `c - 1` when `c > 0` and at 0 when `c = 0`, never at `2^32 - 1`, and then runs
`collect` on that list; the list it returns has no record with reference count 0, and when
the count was left at 0 it has no record of the handle's address. -/
theorem destroy_guarded (size : Int) (reg : List PtrDetails) (self : Pointer) (c : Nat)
    (hshape : ∀ e ∈ reg, hasShape size e)
    (hc : countOf reg self.addr = some c) (h2 : c < 4294967296) :
    countOf (setCount (fun k => if 0 < k then k - 1 else 0) self.addr reg) self.addr =
        some (if 0 < c then c - 1 else 0)
    ∧ (if 0 < c then c - 1 else 0) ≠ 4294967295
    ∧ ∃ b reg' rel,
        collect (setCount (fun k => if 0 < k then k - 1 else 0) self.addr reg) =
          .ok (b, reg', rel)
        ∧ Pointer.destroy reg self = .ok (reg', rel)
        ∧ (∀ e ∈ reg', e.refcount ≠ 0)
        ∧ (c ≤ 1 → ∀ e ∈ reg', e.memPtr ≠ self.addr) := by
  obtain ⟨p, hp⟩ := findPtrInfo_of_countOf hc
  have hmod := modifyAt_decRefGuarded hc h2 hp
  have hcount : countOf (setCount (fun k => if 0 < k then k - 1 else 0) self.addr reg)
      self.addr = some (if 0 < c then c - 1 else 0) := by
    rw [countOf_setCount_self, hc]; rfl
  refine ⟨hcount, by split <;> omega, ?_⟩
  obtain ⟨rel, hcol, -, -⟩ := collect_spec size _ (hasShape_setCount hshape
    : ∀ e ∈ setCount (fun k => if 0 < k then k - 1 else 0) self.addr reg, hasShape size e)
  refine ⟨_, _, rel, hcol, ?_, no_zero_of_filter, ?_⟩
  · unfold Pointer.destroy
    simp only [hp, hmod, hcol]
  · intro hc1 e he heq
    have h0 : (if 0 < c then c - 1 else 0) = 0 := by split <;> omega
    rw [h0] at hcount
    obtain ⟨z, hz, hza, hz0⟩ := countOf_some_mem hcount
    have hmem : self.addr ∈
        zeroAddrs (setCount (fun k => if 0 < k then k - 1 else 0) self.addr reg) :=
      mem_zeroAddrs.2 ⟨z, hz, hz0, hza⟩
    have := (List.mem_filter.1 he).2
    rw [heq] at this
    simp [hmem] at this


/-! ### The constructor of a record -/

theorem toU32_cast (n : Int) : ((toU32 n : Nat) : Int) = n % 4294967296 := by
  unfold toU32
  omega

theorem toU32_of_nonneg {n : Int} (h0 : 0 ≤ n) (h1 : n < 2147483648) :
    ((toU32 n : Nat) : Int) = n := by
  rw [toU32_cast]
  omega

/-- C14 (as amended): for every address and every element count `n` (an `int`),
`PtrDetails(ptr, n)` returns a record with the given address, reference count 1 and
`arraySize` equal to `n` modulo `2^32`; when `n` is not negative, `arraySize` is `n` and
`isArray` is `n > 0`. The constructor is a total function: it never fails. -/
theorem ptrDetails_new_effect (ptr : Addr) (n : Int) :
    (PtrDetails.new ptr n).memPtr = ptr
    ∧ (PtrDetails.new ptr n).refcount = 1
    ∧ ((PtrDetails.new ptr n).arraySize : Int) = n % 4294967296
    ∧ (0 ≤ n → n < 2147483648 →
        ((PtrDetails.new ptr n).arraySize : Int) = n
        ∧ (PtrDetails.new ptr n).isArray = decide (n > 0)) := by
  refine ⟨rfl, rfl, toU32_cast n, ?_⟩
  intro h0 h1
  have h2 := toU32_of_nonneg h0 h1
  refine ⟨h2, ?_⟩
  show decide (toU32 n > 0) = decide (n > 0)
  by_cases hn : n > 0
  · have : toU32 n > 0 := by omega
    rw [decide_eq_true hn, decide_eq_true this]
  · have : ¬ toU32 n > 0 := by omega
    rw [decide_eq_false hn, decide_eq_false this]

/-- C14, the claim as stated fails: `PtrDetails(7, -1)` has `arraySize` `2^32 - 1`, not
`-1`, and `isArray` true although `-1 > 0` is false. -/
theorem ptrDetails_new_negative :
    PtrDetails.new 7 (-1) = ⟨1, 7, true, 4294967295⟩
    ∧ ((4294967295 : Nat) : Int) ≠ -1
    ∧ decide ((-1 : Int) > 0) = false := by
  decide


/-! ### `begin` and `end` -/

theorem toI32_of_lt {u : Nat} (h : u < 2147483648) : toI32 u = (u : Int) := by
  unfold toI32
  split <;> omega

theorem toI32_of_ge {u : Nat} (h1 : 2147483648 ≤ u) (h2 : u < 4294967296) :
    toI32 u = (u : Int) - 4294967296 := by
  unfold toI32
  split <;> omega

/-- C15 (as amended): for every handle with address `a`, with `n = 1` when `isArray` is
false (whatever `arraySize` is), `n = arraySize` when `isArray` is true and `arraySize` is
below `2^31`, and `n = arraySize - 2^32`, the value of `arraySize` as an `int`, when
`isArray` is true and `arraySize` is `2^31` or more: `begin()` builds (current `a`, lower
`a`, upper `a + n`) and `end()` builds (current `a + n`, lower `a`, upper `a + n`). In
every case both have the same bounds and the current position of `end()` is the upper
bound. -/
theorem begin_end_effect (self : Pointer) :
    (self.isArray = false →
      self.begin = ⟨self.addr, self.addr, self.addr + 1⟩
      ∧ self.endIter = ⟨self.addr + 1, self.addr, self.addr + 1⟩)
    ∧ (self.isArray = true → self.arraySize < 2147483648 →
      self.begin = ⟨self.addr, self.addr, self.addr + self.arraySize⟩
      ∧ self.endIter = ⟨self.addr + self.arraySize, self.addr, self.addr + self.arraySize⟩)
    ∧ (self.isArray = true → 2147483648 ≤ self.arraySize → self.arraySize < 4294967296 →
      self.begin = ⟨self.addr, self.addr, self.addr + (self.arraySize - 4294967296)⟩
      ∧ self.endIter = ⟨self.addr + (self.arraySize - 4294967296), self.addr,
          self.addr + (self.arraySize - 4294967296)⟩)
    ∧ self.begin.lower = self.endIter.lower
    ∧ self.begin.upper = self.endIter.upper
    ∧ self.endIter.ptr = self.endIter.upper := by
  refine ⟨?_, ?_, ?_, rfl, rfl, rfl⟩
  · intro hb
    unfold Pointer.begin Pointer.endIter
    rw [hb]
    exact ⟨rfl, rfl⟩
  · intro hb h
    unfold Pointer.begin Pointer.endIter
    rw [toI32_of_lt h, hb]
    exact ⟨rfl, rfl⟩
  · intro hb h1 h2
    unfold Pointer.begin Pointer.endIter
    rw [toI32_of_ge h1 h2, hb]
    exact ⟨rfl, rfl⟩

/-- C15, the claim as stated fails: the copy of a handle of the combination with element
count `-1` over address 10 has `isArray` true and `arraySize` `2^32 - 1`; its `begin()`
has the upper bound 9, not `10 + (2^32 - 1)`. -/
theorem begin_upper_below_address :
    Pointer.copy (Pointer.new (-1) Statics.init 10).1.refContainer
        (Pointer.new (-1) Statics.init 10).2 =
      .ok ([⟨2, 10, true, 4294967295⟩], ⟨10, true, 4294967295⟩)
    ∧ (Pointer.mk 10 true 4294967295).begin = ⟨10, 10, 9⟩
    ∧ (9 : Int) ≠ 10 + 4294967295 := by
  decide

/-! ### The mirror of the array shape in a handle -/

/-- C17, the code at element count `-1`: after `Pointer(7)` on the empty list the record of
address 7 has `isArray` true while the handle has `isArray` false; the copy of that handle
has `isArray` true. -/
theorem construct_mirror_differs_negative :
    (Pointer.new (-1) Statics.init 7).1.refContainer = [⟨1, 7, true, 4294967295⟩]
    ∧ (Pointer.new (-1) Statics.init 7).2 = ⟨7, false, 4294967295⟩
    ∧ Pointer.copy [⟨1, 7, true, 4294967295⟩] ⟨7, false, 4294967295⟩ =
        .ok ([⟨2, 7, true, 4294967295⟩], ⟨7, true, 4294967295⟩) := by
  decide


/-! ### `collect` on a list without two records on one address -/

theorem mem_zeroAddrs_iff_of_nodup {reg : List PtrDetails}
    (hnd : (reg.map PtrDetails.memPtr).Nodup) {e : PtrDetails} (he : e ∈ reg) :
    e.memPtr ∈ zeroAddrs reg ↔ e.refcount = 0 := by
  constructor
  · intro h
    obtain ⟨z, hz, hz0, hza⟩ := mem_zeroAddrs.1 h
    have : z = e := List.inj_on_of_nodup_map hnd hz he hza
    rw [← this]; exact hz0
  · intro h
    exact mem_zeroAddrs.2 ⟨e, he, h, rfl⟩

theorem collect_of_nodup (size : Int) (reg : List PtrDetails)
    (hshape : ∀ e ∈ reg, hasShape size e) (hnd : (reg.map PtrDetails.memPtr).Nodup) :
    ∃ b rel, collect reg = .ok (b, reg.filter (fun e => !decide (e.refcount = 0)), rel) := by
  obtain ⟨rel, h1, -, -⟩ := collect_spec size reg hshape
  refine ⟨decide (zeroAddrs reg ≠ []), rel, ?_⟩
  rw [h1]
  have : reg.filter (fun e => !decide (e.memPtr ∈ zeroAddrs reg)) =
      reg.filter (fun e => !decide (e.refcount = 0)) := by
    apply List.filter_congr
    intro e he
    by_cases h0 : e.refcount = 0
    · simp [h0, (mem_zeroAddrs_iff_of_nodup hnd he).2 h0]
    · have : e.memPtr ∉ zeroAddrs reg := fun h => h0 ((mem_zeroAddrs_iff_of_nodup hnd he).1 h)
      simp [h0, this]
  rw [this]

/-- C18: on every list of records of one combination in which no two records share an
address, `collect` leaves exactly the list with the records of reference count 0 deleted:
the records with a reference count above 0 stay, with their fields and in their order. -/
theorem collect_removes_exactly_zero (size : Int) (reg : List PtrDetails)
    (hshape : ∀ e ∈ reg, hasShape size e) (hnd : (reg.map PtrDetails.memPtr).Nodup) :
    ∃ b rel, collect reg = .ok (b, reg.filter (fun e => !decide (e.refcount = 0)), rel) :=
  collect_of_nodup size reg hshape hnd


/-! ### Every operation keeps the addresses distinct and the shapes uniform -/

theorem mem_modifyAt (g : PtrDetails → PtrDetails) :
    ∀ (reg : List PtrDetails) (i : Nat) (x : PtrDetails), x ∈ modifyAt g i reg →
      x ∈ reg ∨ ∃ e ∈ reg, x = g e
  | [], 0, x, h => by cases h
  | [], _ + 1, x, h => by cases h
  | q :: rest, 0, x, h => by
    rcases List.mem_cons.1 (show x ∈ g q :: rest from h) with h1 | h1
    · exact Or.inr ⟨q, List.mem_cons_self _ _, h1⟩
    · exact Or.inl (List.mem_cons_of_mem _ h1)
  | q :: rest, i + 1, x, h => by
    rcases List.mem_cons.1 (show x ∈ q :: modifyAt g i rest from h) with h1 | h1
    · exact Or.inl (h1 ▸ List.mem_cons_self _ _)
    · rcases mem_modifyAt g rest i x h1 with h2 | ⟨e, he, h2⟩
      · exact Or.inl (List.mem_cons_of_mem _ h2)
      · exact Or.inr ⟨e, List.mem_cons_of_mem _ he, h2⟩

theorem map_memPtr_modifyAt (g : PtrDetails → PtrDetails)
    (hg : ∀ e, (g e).memPtr = e.memPtr) :
    ∀ (reg : List PtrDetails) (i : Nat),
      (modifyAt g i reg).map PtrDetails.memPtr = reg.map PtrDetails.memPtr
  | [], 0 => rfl
  | [], _ + 1 => rfl
  | q :: rest, 0 => by
    show (g q :: rest).map PtrDetails.memPtr = _
    rw [List.map_cons, List.map_cons, hg q]
  | q :: rest, i + 1 => by
    show (q :: modifyAt g i rest).map PtrDetails.memPtr = _
    rw [List.map_cons, List.map_cons, map_memPtr_modifyAt g hg rest i]

theorem regWF_modifyAt {size : Int} {reg : List PtrDetails} (g : PtrDetails → PtrDetails)
    (hg : ∀ e, (g e).memPtr = e.memPtr ∧ (g e).isArray = e.isArray ∧
      (g e).arraySize = e.arraySize) (i : Nat) (h : RegWF size reg) :
    RegWF size (modifyAt g i reg) := by
  constructor
  · rw [map_memPtr_modifyAt g (fun e => (hg e).1)]
    exact h.1
  · intro x hx
    rcases mem_modifyAt g reg i x hx with h1 | ⟨e, he, h1⟩
    · exact h.2 x h1
    · rw [h1]
      exact ⟨(hg e).2.1.trans (h.2 e he).1, (hg e).2.2.trans (h.2 e he).2⟩

theorem decRefGuarded_fields (e : PtrDetails) :
    (decRefGuarded e).memPtr = e.memPtr ∧ (decRefGuarded e).isArray = e.isArray ∧
      (decRefGuarded e).arraySize = e.arraySize := by
  unfold decRefGuarded
  by_cases h0 : e.refcount ≠ 0
  · rw [if_pos h0]; exact ⟨rfl, rfl, rfl⟩
  · rw [if_neg h0]; exact ⟨rfl, rfl, rfl⟩

theorem regWF_insert {size : Int} {reg : List PtrDetails} {t : Addr} (h : RegWF size reg)
    (hnone : findPtrInfo reg t = none) : RegWF size (PtrDetails.new t size :: reg) := by
  constructor
  · rw [List.map_cons, List.nodup_cons]
    refine ⟨?_, h.1⟩
    intro hmem
    obtain ⟨e, he, het⟩ := List.mem_map.1 hmem
    exact findPtrInfo_eq_none.1 hnone e he het
  · intro e he
    rcases List.mem_cons.1 he with h1 | h1
    · rw [h1]; exact hasShape_new size t
    · exact h.2 e h1

theorem regWF_add {size : Int} {reg : List PtrDetails} (t : Addr) (h : RegWF size reg) :
    RegWF size (match findPtrInfo reg t with
      | some p => modifyAt incRef p reg
      | none => PtrDetails.new t size :: reg) := by
  cases hf : findPtrInfo reg t with
  | some p => exact regWF_modifyAt incRef (fun e => ⟨rfl, rfl, rfl⟩) p h
  | none => exact regWF_insert h hf

theorem regWF_filter {size : Int} {reg : List PtrDetails} (p : PtrDetails → Bool)
    (h : RegWF size reg) : RegWF size (reg.filter p) :=
  ⟨h.1.sublist ((List.filter_sublist _).map _), fun e he => h.2 e (List.mem_filter.1 he).1⟩

theorem collect_regWF {size : Int} {reg : List PtrDetails} (h : RegWF size reg) :
    ∃ b reg' rel, collect reg = .ok (b, reg', rel) ∧ RegWF size reg' := by
  obtain ⟨rel, h1, -, -⟩ := collect_spec size reg h.2
  exact ⟨_, _, rel, h1, regWF_filter _ h⟩

theorem shutdown_regWF {size : Int} {reg : List PtrDetails} (h : RegWF size reg) :
    ∃ reg' rel, shutdown reg = .ok (reg', rel) ∧ RegWF size reg' := by
  unfold shutdown
  by_cases h0 : refContainerSize reg = 0
  · rw [if_pos h0]
    exact ⟨reg, [], rfl, h⟩
  · rw [if_neg h0]
    have hz : RegWF size (reg.map fun p => { p with refcount := 0 }) := by
      constructor
      · rw [List.map_map]
        exact h.1
      · intro e he
        obtain ⟨q, hq, rfl⟩ := List.mem_map.1 he
        exact h.2 q hq
    obtain ⟨b, reg', rel, hc, hwf⟩ := collect_regWF hz
    rw [hc]
    exact ⟨reg', rel, rfl, hwf⟩

theorem destroy_regWF {size : Int} {reg : List PtrDetails} (self : Pointer)
    (h : RegWF size reg) :
    (∀ reg' rel, Pointer.destroy reg self = .ok (reg', rel) → RegWF size reg')
    ∧ (∀ f, Pointer.destroy reg self = .error f → f = .endDeref) := by
  unfold Pointer.destroy
  cases hp : findPtrInfo reg self.addr with
  | none =>
    exact ⟨fun reg' rel hr => (by cases hr), fun f hf => (by cases hf; rfl)⟩
  | some p =>
    obtain ⟨b, reg1, rel1, hc, hwf⟩ :=
      collect_regWF (regWF_modifyAt decRefGuarded decRefGuarded_fields p h)
    simp only [hc]
    exact ⟨fun reg' rel hr => (by cases hr; exact hwf), fun f hf => (by cases hf)⟩


theorem step_regWF {size : Int} {w : World} {op : Op}
    (h : RegWF size w.statics.refContainer) :
    (∀ w', step size w op = .ok w' → RegWF size w'.statics.refContainer)
    ∧ (∀ f, step size w op = .error f → f = .noSuchHandle ∨ f = .endDeref) := by
  cases op with
  | construct t =>
    refine ⟨?_, fun f hf => (by cases hf)⟩
    intro w' hw'
    cases hw'
    exact regWF_add t h
  | copy ob =>
    cases hh : w.handle ob with
    | error f =>
      simp only [step, hh]
      exact ⟨fun w' hw' => (by cases hw'),
        fun f hf => (by cases hf; exact Or.inl (handle_error hh))⟩
    | ok o =>
      cases hp : findPtrInfo w.statics.refContainer o.addr with
      | none =>
        simp only [step, hh, Pointer.copy, hp]
        exact ⟨fun w' hw' => (by cases hw'), fun f hf => (by cases hf; exact Or.inr rfl)⟩
      | some p =>
        simp only [step, hh, Pointer.copy, hp]
        refine ⟨?_, fun f hf => (by cases hf)⟩
        intro w' hw'
        cases hw'
        exact regWF_modifyAt incRef (fun e => ⟨rfl, rfl, rfl⟩) p h
  | assignRaw hd t =>
    cases hh : w.handle hd with
    | error f =>
      simp only [step, hh]
      exact ⟨fun w' hw' => (by cases hw'),
        fun f hf => (by cases hf; exact Or.inl (handle_error hh))⟩
    | ok self =>
      cases hp : findPtrInfo w.statics.refContainer self.addr with
      | none =>
        simp only [step, hh, Pointer.assignRaw, hp]
        exact ⟨fun w' hw' => (by cases hw'), fun f hf => (by cases hf; exact Or.inr rfl)⟩
      | some p =>
        simp only [step, hh, Pointer.assignRaw, hp]
        refine ⟨?_, fun f hf => (by cases hf)⟩
        intro w' hw'
        cases hw'
        exact regWF_add t (regWF_modifyAt decRef (fun e => ⟨rfl, rfl, rfl⟩) p h)
  | assign hd rv =>
    cases hh : w.handle hd with
    | error f =>
      simp only [step, hh]
      exact ⟨fun w' hw' => (by cases hw'),
        fun f hf => (by cases hf; exact Or.inl (handle_error hh))⟩
    | ok self =>
      cases hr : w.handle rv with
      | error f =>
        simp only [step, hh, hr]
        exact ⟨fun w' hw' => (by cases hw'),
          fun f hf => (by cases hf; exact Or.inl (handle_error hr))⟩
      | ok o =>
        cases hp : findPtrInfo w.statics.refContainer self.addr with
        | none =>
          simp only [step, hh, hr, Pointer.assign, hp]
          exact ⟨fun w' hw' => (by cases hw'), fun f hf => (by cases hf; exact Or.inr rfl)⟩
        | some p =>
          cases hq : findPtrInfo (modifyAt decRef p w.statics.refContainer) o.addr with
          | none =>
            simp only [step, hh, hr, Pointer.assign, hp, hq]
            exact ⟨fun w' hw' => (by cases hw'), fun f hf => (by cases hf; exact Or.inr rfl)⟩
          | some q =>
            simp only [step, hh, hr, Pointer.assign, hp, hq]
            refine ⟨?_, fun f hf => (by cases hf)⟩
            intro w' hw'
            cases hw'
            exact regWF_modifyAt incRef (fun e => ⟨rfl, rfl, rfl⟩) q
              (regWF_modifyAt decRef (fun e => ⟨rfl, rfl, rfl⟩) p h)
  | destroy hd =>
    cases hh : w.handle hd with
    | error f =>
      simp only [step, hh]
      exact ⟨fun w' hw' => (by cases hw'),
        fun f hf => (by cases hf; exact Or.inl (handle_error hh))⟩
    | ok self =>
      obtain ⟨d1, d2⟩ := destroy_regWF self h
      cases hd2 : Pointer.destroy w.statics.refContainer self with
      | error f =>
        simp only [step, hh, hd2]
        exact ⟨fun w' hw' => (by cases hw'),
          fun f' hf => (by cases hf; exact Or.inr (d2 f hd2))⟩
      | ok res =>
        obtain ⟨reg', rel⟩ := res
        simp only [step, hh, hd2]
        refine ⟨?_, fun f hf => (by cases hf)⟩
        intro w' hw'
        cases hw'
        exact d1 reg' rel hd2
  | collect =>
    obtain ⟨b, reg', rel, hc, hwf⟩ := collect_regWF h
    simp only [step, hc]
    refine ⟨?_, fun f hf => (by cases hf)⟩
    intro w' hw'
    cases hw'
    exact hwf
  | shutdown =>
    obtain ⟨reg', rel, hc, hwf⟩ := shutdown_regWF h
    simp only [step, hc]
    refine ⟨?_, fun f hf => (by cases hf)⟩
    intro w' hw'
    cases hw'
    exact hwf

/-- Along every sequence of operations from a list with distinct addresses and uniform
shapes, the list keeps both properties, and the only possible faults are the use of a
handle that is not live and a member access through `refContainer.end()`. -/
theorem run_regWF {size : Int} :
    ∀ (ops : List Op) (w : World), RegWF size w.statics.refContainer →
      (∀ w', run size ops w = .ok w' → RegWF size w'.statics.refContainer)
      ∧ (∀ f, run size ops w = .error f → f = .noSuchHandle ∨ f = .endDeref)
  | [], w, h => by
    constructor
    · intro w' hw'; cases hw'; exact h
    · intro f hf; cases hf
  | op :: ops, w, h => by
    obtain ⟨h1, h2⟩ := @step_regWF size w op h
    cases hs : step size w op with
    | error f =>
      rw [run_cons_error hs]
      constructor
      · intro w' hw'; cases hw'
      · intro f' hf'; cases hf'; exact h2 f hs
    | ok w1 =>
      rw [run_cons_ok hs]
      exact run_regWF ops w1 (h1 w1 hs)

theorem regWF_init (size : Int) : RegWF size World.init.statics.refContainer :=
  ⟨List.nodup_nil, fun e he => (by cases he)⟩


/-! ### Distinct addresses and uniform shapes after every sequence of operations -/

/-- C19: starting from the empty list, after every sequence of `Pointer(t)`, copy
construction, `operator=(T *)`, `operator=(Pointer &)`, destructor, `collect()` and
`shutdown()` that runs to its end, no two records of `refContainer` have the same address;
a sequence that does not run to its end stops at the use of a handle that is not live or at
a member access through `refContainer.end()`. -/
theorem no_two_records_share_address (size : Int) (ops : List Op) :
    (∀ w, run size ops World.init = .ok w →
      (w.statics.refContainer.map PtrDetails.memPtr).Nodup
      ∧ ∀ e ∈ w.statics.refContainer, ∀ v ∈ w.statics.refContainer,
          e.memPtr = v.memPtr → e = v)
    ∧ (∀ f, run size ops World.init = .error f → f = .noSuchHandle ∨ f = .endDeref) := by
  obtain ⟨h1, h2⟩ := @run_regWF size ops World.init (regWF_init size)
  refine ⟨fun w hw => ⟨(h1 w hw).1, ?_⟩, h2⟩
  intro e he v hv hev
  exact List.inj_on_of_nodup_map (h1 w hw).1 he hv hev

/-- C20: starting from the empty list, after every sequence of `Pointer(t)`, copy
construction, `operator=(T *)`, `operator=(Pointer &)`, destructor, `collect()` and
`shutdown()` of the combination with element count `size` that runs to its end, every
record of `refContainer` has the `isArray` and the `arraySize` that `PtrDetails(ptr, size)`
gives; `operator==` on two records of that list returns whether their addresses are equal
and does not throw, `remove` and `collect` on that list return, and no sequence ends with
the `std::runtime_error` of `operator==`. -/
theorem records_have_combination_shape (size : Int) (ops : List Op) :
    (∀ w, run size ops World.init = .ok w →
      (∀ e ∈ w.statics.refContainer,
        e.isArray = (PtrDetails.new e.memPtr size).isArray
        ∧ e.arraySize = (PtrDetails.new e.memPtr size).arraySize)
      ∧ (∀ e ∈ w.statics.refContainer, ∀ v ∈ w.statics.refContainer,
          operatorEq e v = .ok (decide (e.memPtr = v.memPtr)))
      ∧ (∀ v ∈ w.statics.refContainer, ∃ reg1, listRemove w.statics.refContainer v = .ok reg1)
      ∧ ∃ b reg' rel, collect w.statics.refContainer = .ok (b, reg', rel))
    ∧ run size ops World.init ≠ .error .runtimeError := by
  obtain ⟨h1, h2⟩ := @run_regWF size ops World.init (regWF_init size)
  constructor
  · intro w hw
    have hs : ∀ e ∈ w.statics.refContainer, hasShape size e := (h1 w hw).2
    refine ⟨hs, fun e he v hv => operatorEq_of_shape (hs e he) (hs v hv), ?_, ?_⟩
    · intro v hv
      exact ⟨_, listRemove_of_shape (hs v hv) _ hs⟩
    · obtain ⟨rel, hc, -, -⟩ := collect_spec size _ hs
      exact ⟨_, _, rel, hc⟩
  · intro h
    rcases h2 _ h with h3 | h3 <;> cases h3

/-! ### The theorems of the later sections at concrete inputs -/

/-- C12 (as amended) on the list `exampleReg`, for a handle on address 9, whose record has
reference count 1, and the raw address 8, which has no record. -/
theorem assignRaw_effect_witness :
    ∃ reg2,
      Pointer.assignRaw 0 exampleReg ⟨9, false, 0⟩ 8 = .ok (reg2, ⟨8, false, 0⟩, 8)
      ∧ reg2 = PtrDetails.mk 1 8 false 0 :: setCount (fun k => k - 1) 9 exampleReg
      ∧ countOf reg2 9 = some 0
      ∧ ∃ reg3 rel, collect reg2 = .ok (true, reg3, rel) ∧ ∀ e ∈ reg3, e.memPtr ≠ 9 :=
  match assignRaw_effect 0 exampleReg ⟨9, false, 0⟩ 8 1 (by decide) (by decide) (by decide)
      (by decide) with
  | ⟨reg2, e1, e2, _, _, e5⟩ => ⟨reg2, e1, e2, e5 rfl (by decide)⟩

/-- C13 (as amended) on the list `exampleReg`, for a handle on address 9, whose record has
reference count 1, and a handle on address 7, whose record has reference count 2. -/
theorem assign_effect_witness :
    ∃ reg2,
      Pointer.assign exampleReg ⟨9, false, 0⟩ ⟨7, false, 0⟩ = .ok (reg2, ⟨7, false, 0⟩)
      ∧ reg2.map PtrDetails.memPtr = exampleReg.map PtrDetails.memPtr
      ∧ countOf reg2 9 = some (1 - 1)
      ∧ countOf reg2 7 = some ((2 + 1) % 4294967296) :=
  match assign_effect exampleReg ⟨9, false, 0⟩ ⟨7, false, 0⟩ 1 2 (by decide) (by decide)
      (by decide) (by decide) with
  | ⟨reg2, e1, _, e3, e4, _, _⟩ => ⟨reg2, e1, e3, e4 (by decide)⟩

/-- C14 (as amended) for `PtrDetails(7, 5)`. -/
theorem ptrDetails_new_effect_witness :
    ((PtrDetails.new 7 5).arraySize : Int) = 5
    ∧ (PtrDetails.new 7 5).isArray = decide ((5 : Int) > 0) :=
  (ptrDetails_new_effect 7 5).2.2.2 (by decide) (by decide)

/-- C15 (as amended) for a handle on address 10 of an array of 5 elements, and for the
handle that `Pointer(7)` builds in the combination with element count `-1`, whose `isArray`
is false and whose `arraySize` is `2^32 - 1`. -/
theorem begin_end_effect_witness :
    ((Pointer.mk 10 true 5).begin = ⟨10, 10, 10 + 5⟩
      ∧ (Pointer.mk 10 true 5).endIter = ⟨10 + 5, 10, 10 + 5⟩)
    ∧ ((Pointer.new (-1) Statics.init 7).2 = Pointer.mk 7 false 4294967295
      ∧ (Pointer.mk 7 false 4294967295).begin = ⟨7, 7, 7 + 1⟩
      ∧ (Pointer.mk 7 false 4294967295).endIter = ⟨7 + 1, 7, 7 + 1⟩) :=
  ⟨(begin_end_effect (Pointer.mk 10 true 5)).2.1 rfl (by decide),
    by decide, (begin_end_effect (Pointer.mk 7 false 4294967295)).1 rfl⟩

/-- C16 on the list `exampleReg`, for a handle on address 9, whose record has reference
count 1. -/
theorem destroy_guarded_witness :
    ∃ b reg' rel,
      collect (setCount (fun k => if 0 < k then k - 1 else 0) 9 exampleReg) =
        .ok (b, reg', rel)
      ∧ Pointer.destroy exampleReg ⟨9, false, 0⟩ = .ok (reg', rel)
      ∧ (∀ e ∈ reg', e.refcount ≠ 0)
      ∧ ∀ e ∈ reg', e.memPtr ≠ 9 :=
  match (destroy_guarded 0 exampleReg ⟨9, false, 0⟩ 1 (by decide) (by decide)
      (by decide)).2.2 with
  | ⟨b, reg', rel, e1, e2, e3, e4⟩ => ⟨b, reg', rel, e1, e2, e3, e4 (by decide)⟩

/-- C18 on the list `exampleReg`, whose four records have four addresses. -/
theorem collect_removes_exactly_zero_witness :
    ∃ b rel, collect exampleReg =
      .ok (b, exampleReg.filter (fun e => !decide (e.refcount = 0)), rel) :=
  collect_removes_exactly_zero 0 exampleReg (by decide) (by decide)

/-- C19 on the sequence `exampleOpsAll` with element count 0, which runs to its end. -/
theorem no_two_records_share_address_witness :
    ∃ w, run 0 exampleOpsAll World.init = .ok w
      ∧ w.statics.refContainer.length = 2
      ∧ (w.statics.refContainer.map PtrDetails.memPtr).Nodup :=
  ⟨_, rfl, rfl, ((no_two_records_share_address 0 exampleOpsAll).1 _ rfl).1⟩

/-- C20 on the sequence `exampleOpsAll` with element count 0, which runs to its end. -/
theorem records_have_combination_shape_witness :
    ∃ w, run 0 exampleOpsAll World.init = .ok w
      ∧ w.statics.refContainer.length = 2
      ∧ ∀ e ∈ w.statics.refContainer,
          e.isArray = (PtrDetails.new e.memPtr 0).isArray
          ∧ e.arraySize = (PtrDetails.new e.memPtr 0).arraySize :=
  ⟨_, rfl, rfl, ((records_have_combination_shape 0 exampleOpsAll).1 _ rfl).1⟩

end GC
